import Mathlib

/-!
Verification of the power-flow solution post-processor `pfsoln`
(source: `pandapower/pypower/pfsoln.py`).

The tables (`bus`, `gen`, `branch`) are lists of records holding the
columns the routine reads or writes.  Machine floats are modelled as
exact rationals, complex float values as pairs of rationals.  The two
fatal error paths of the source — the `IndexError` raised by
`Sbus[gens_at_bus[0]]` on an empty index list and the `RuntimeError`
raised when out-of-service branches are present — are modelled with
`Except`.  The float functions `abs` and `angle` (irrational valued)
and the float constant `pi` are abstract parameters of the voltage
update; everything else is computed exactly.
-/

set_option autoImplicit false

set_option linter.unusedVariables false

/-- Complex number with rational components (a float complex value). -/
structure CNum where
  re : ℚ
  im : ℚ
deriving DecidableEq

instance : Inhabited CNum := ⟨⟨0, 0⟩⟩

instance : Zero CNum := ⟨⟨0, 0⟩⟩

instance : Add CNum := ⟨fun x y => ⟨x.re + y.re, x.im + y.im⟩⟩

instance : Sub CNum := ⟨fun x y => ⟨x.re - y.re, x.im - y.im⟩⟩

instance : Mul CNum := ⟨fun x y => ⟨x.re * y.re - x.im * y.im, x.re * y.im + x.im * y.re⟩⟩

/-- Complex conjugate. -/
def CNum.conj (x : CNum) : CNum := ⟨x.re, -x.im⟩

/-- Complex value scaled by a real scalar (`c * baseMVA`). -/
def CNum.rmul (c : CNum) (q : ℚ) : CNum := ⟨c.re * q, c.im * q⟩

/-- One row of the bus table (columns `VM`, `VA`, `PD`, `QD`). -/
structure BusR where
  vm : ℚ
  va : ℚ
  pd : ℚ
  qd : ℚ
deriving DecidableEq

instance : Inhabited BusR := ⟨⟨0, 0, 0, 0⟩⟩

/-- One row of the generator table
(columns `GEN_BUS`, `GEN_STATUS`, `PG`, `QG`, `QMIN`, `QMAX`). -/
structure GenR where
  bus : ℕ
  status : ℚ
  pg : ℚ
  qg : ℚ
  qmin : ℚ
  qmax : ℚ
deriving DecidableEq

instance : Inhabited GenR := ⟨⟨0, 0, 0, 0, 0, 0⟩⟩

/-- One row of the branch table
(columns `F_BUS`, `T_BUS`, `BR_STATUS`, `PF`, `QF`, `PT`, `QT`). -/
structure BrR where
  fbus : ℕ
  tbus : ℕ
  status : ℚ
  pf : ℚ
  qf : ℚ
  pt : ℚ
  qt : ℚ
deriving DecidableEq

instance : Inhabited BrR := ⟨⟨0, 0, 0, 0, 0, 0, 0⟩⟩

/-- The two fatal exceptions the routine can raise: the `IndexError`
from indexing with `gens_at_bus[0]` when a reference bus hosts no
in-service generator, and the `RuntimeError` raised when the branch
table contains an out-of-service branch. -/
inductive PfErr where
  | indexErr
  | runtimeErr
deriving DecidableEq

/-- Map over a list together with the element index (used to render
whole-column array writes). -/
def mapWithIdx {α : Type} (f : ℕ → α → α) : ℕ → List α → List α
  | _, [] => []
  | i, a :: t => f i a :: mapWithIdx f (i + 1) t

/-- Machine epsilon of float64: `EPS = finfo(float).eps = 2 ** (-52)`. -/
def EPS : ℚ := 1 / 2 ^ 52

/-- Row `r` of a (densely rendered) matrix applied to the vector `V`,
e.g. `(Ybus * V)[r]` or `Yf[r, :] * V`. -/
def dotRow (Y : ℕ → ℕ → CNum) (r : ℕ) (V : List CNum) : CNum :=
  ((List.range V.length).map (fun j => Y r j * V.getD j default)).sum

/-- Total complex power injected at bus `b`:
`V[b] * conj((Ybus * V)[b] - Ibus[b])` (`Sbus` is this evaluated at the
bus of every in-service generator). -/
def SbusFun (Ybus : ℕ → ℕ → CNum) (Ibus V : List CNum) (b : ℕ) : CNum :=
  V.getD b default * CNum.conj (dotRow Ybus b V - Ibus.getD b default)

/-- `on = find(gen[:, GEN_STATUS] > 0)`: row indices of the in-service
generators, in increasing order. -/
def onIdx (gen : List GenR) : List ℕ :=
  (List.range gen.length).filter (fun i => decide (0 < (gen.getD i default).status))

/-- The in-service generators hosted at bus `b`. -/
def onAt (gen : List GenR) (b : ℕ) : List ℕ :=
  (onIdx gen).filter (fun i => decide ((gen.getD i default).bus = b))

/-- Number of in-service generators at bus `b` (the entries of `ngg`,
i.e. of `Cg * Cg.sum(0).T`). -/
def cntAt (gen : List GenR) (b : ℕ) : ℕ :=
  (onAt gen b).length

/-- `Qg_min[b]`: total `QMIN` over in-service generators at `b`
(the entries of `Cmin.sum(0)`). -/
def qminAt (gen : List GenR) (b : ℕ) : ℚ :=
  ((onAt gen b).map (fun i => (gen.getD i default).qmin)).sum

/-- `Qg_max[b]`: total `QMAX` over in-service generators at `b`
(the entries of `Cmax.sum(0)`). -/
def qmaxAt (gen : List GenR) (b : ℕ) : ℚ :=
  ((onAt gen b).map (fun i => (gen.getD i default).qmax)).sum

/-- Provisional per-bus reactive dispatch `Im(S) * baseMVA + Qd`. -/
def provQ (base : ℚ) (busT : List BusR) (Sb : ℕ → CNum) (b : ℕ) : ℚ :=
  (Sb b).im * base + (busT.getD b default).qd

/-- `_update_v`: `bus[:, VM] = abs(V); bus[:, VA] = angle(V) * 180 / pi`.
`fabs`, `fangle` and `fpi` are the float absolute value, argument and
pi constant, taken as parameters. -/
def updateV (fabs fangle : CNum → ℚ) (fpi : ℚ) (busT : List BusR) (V : List CNum) :
    List BusR :=
  mapWithIdx (fun i b =>
    { b with vm := fabs (V.getD i default),
             va := fangle (V.getD i default) * 180 / fpi }) 0 busT

/-- First pass of `_update_q`:
`gen[:, QG] = zeros(ng); gen[on, QG] = Sbus.imag * baseMVA + bus[gbus, QD]`.
Membership of a row in `on` is the row test `0 < status`. -/
def updQ1 (base : ℚ) (busT : List BusR) (Sb : ℕ → CNum) (gen : List GenR) : List GenR :=
  gen.map (fun g =>
    if 0 < g.status then { g with qg := provQ base busT Sb g.bus }
    else { g with qg := 0 })

/-- Second pass of `_update_q`: `gen[on, QG] = gen[on, QG] / ngg`
(equal split among the generators at the same bus); `gen` is the
original table from which `ngg` is computed. -/
def updQ2 (gen gen1 : List GenR) : List GenR :=
  gen1.map (fun g =>
    if 0 < g.status then { g with qg := g.qg / (cntAt gen g.bus : ℚ) } else g)

/-- Third pass of `_update_q`:
`ig = find(Cg * Qg_min == Cg * Qg_max); Qg_save = gen[on[ig], QG];`
`gen[on, QG] = Qmin + (Cg*((Qg_tot - Qg_min)/(Qg_max - Qg_min + EPS)))*(Qmax - Qmin);`
`gen[on[ig], QG] = Qg_save`.
`Qg_tot` is read off the equal-split table `gen2`; the save/restore of
the zero-range rows is merged into the row-wise case split (those rows
keep their `gen2` value verbatim). -/
def updQ3 (gen gen2 : List GenR) : List GenR :=
  -- Qg_tot = Cg.T * gen[on, QG]
  let qtot : ℕ → ℚ := fun b => ((onAt gen b).map (fun i => (gen2.getD i default).qg)).sum
  gen2.map (fun g =>
    if 0 < g.status then
      if qminAt gen g.bus = qmaxAt gen g.bus then g
      else
        { g with qg := g.qmin +
            (qtot g.bus - qminAt gen g.bus) /
              (qmaxAt gen g.bus - qminAt gen g.bus + EPS) * (g.qmax - g.qmin) }
    else g)

/-- `_update_q`: reactive power reconciliation.  The batched column
writes of the source are rendered as the three per-row passes above. -/
def updateQ (base : ℚ) (busT : List BusR) (gen : List GenR) (Sb : ℕ → CNum) :
    List GenR :=
  -- if len(on) > 1: equal split, then proportional-to-range redistribution
  if 1 < (onIdx gen).length then
    updQ3 gen (updQ2 gen (updQ1 base busT Sb gen))
  else updQ1 base busT Sb gen

/-- `gen[idxs, PG] = v`: set the `PG` column of the rows listed in
`idxs` to `v`. -/
def setPgAt (gen : List GenR) (idxs : List ℕ) (v : ℚ) : List GenR :=
  mapWithIdx (fun i g => if i ∈ idxs then { g with pg := v } else g) 0 gen

/-- The index list `gens_at_bus = find(gbus == slack_bus)`.  `gbus` is
the positional array of hosting buses of the in-service generators, so
these are positions into `on`; note that the source intersects this
position list directly with the generator-index list `ref_gens` and
indexes `gen` with the result. -/
def gensAtB (gbus : List ℕ) (r : ℕ) : List ℕ :=
  (List.range gbus.length).filter (fun k => decide (gbus.getD k 0 = r))

/-- `ext_grids = intersect1d(gens_at_bus, ref_gens)`: both operands are
sorted duplicate-free, so the intersection is this filter. -/
def extAtB (gbus refGens : List ℕ) (r : ℕ) : List ℕ :=
  (gensAtB gbus r).filter (fun k => decide (k ∈ refGens))

/-- `pv_gens = setdiff1d(gens_at_bus, ext_grids)`. -/
def pvAtB (gbus refGens : List ℕ) (r : ℕ) : List ℕ :=
  (gensAtB gbus r).filter (fun k => decide (¬ k ∈ extAtB gbus refGens r))

/-- `p_bus = Sbus[gens_at_bus[0]].real * baseMVA + bus[slack_bus, PD]`. -/
def pBusAt (base : ℚ) (busT : List BusR) (gbus : List ℕ) (Sbus : List CNum) (r : ℕ) : ℚ :=
  (Sbus.getD ((gensAtB gbus r).getD 0 0) default).re * base + (busT.getD r default).pd

/-- One iteration of the `for slack_bus in ref` loop of `_update_p`. -/
def updatePStep (base : ℚ) (busT : List BusR) (gbus onL : List ℕ) (Sbus : List CNum)
    (refGens : List ℕ) (genC : List GenR) (r : ℕ) : Except PfErr (List GenR) :=
  -- gens_at_bus = find(gbus == slack_bus)
  let gensAtBus := gensAtB gbus r
  if gensAtBus = [] then
    -- Sbus[gens_at_bus[0]] raises IndexError on an empty index list
    .error .indexErr
  else
    -- p_bus = Sbus[gens_at_bus[0]].real * baseMVA + bus[slack_bus, PD]
    let pBus := pBusAt base busT gbus Sbus r
    if 1 < gensAtBus.length then
      -- ext_grids = intersect1d(gens_at_bus, ref_gens)
      let extGrids := extAtB gbus refGens r
      -- pv_gens = setdiff1d(gens_at_bus, ext_grids)
      let pvGens := pvAtB gbus refGens r
      -- p_ext_grids = p_bus - sum(gen[pv_gens, PG])
      let pExt := pBus - ((pvGens.map (fun k => (genC.getD k default).pg)).sum)
      -- gen[ext_grids, PG] = p_ext_grids / len(ext_grids)
      -- (an empty ext_grids makes this a no-op: nothing is assigned)
      .ok (setPgAt genC extGrids (pExt / (extGrids.length : ℚ)))
    else
      -- gen[on[gens_at_bus[0]], PG] = p_bus
      .ok (setPgAt genC [onL.getD (gensAtBus.getD 0 0) 0] pBus)

/-- The `for slack_bus in ref` loop of `_update_p`, threading the
mutable generator table. -/
def updatePLoop (base : ℚ) (busT : List BusR) (gbus onL : List ℕ) (Sbus : List CNum)
    (refGens : List ℕ) : List GenR → List ℕ → Except PfErr (List GenR)
  | genC, [] => .ok genC
  | genC, r :: rest =>
    match updatePStep base busT gbus onL Sbus refGens genC r with
    | .error e => .error e
    | .ok g' => updatePLoop base busT gbus onL Sbus refGens g' rest

/-- `_update_p`: slack-bus active power reconciliation. -/
def updateP (base : ℚ) (busT : List BusR) (gen : List GenR) (ref : List ℕ)
    (gbus onL : List ℕ) (Sbus : List CNum) (refGens : List ℕ) :
    Except PfErr (List GenR) :=
  updatePLoop base busT gbus onL Sbus refGens gen ref

/-- `Ibus = zeros(len(V)) if Ibus is None else Ibus`. -/
def resolveIbus (V : List CNum) (IbusO : Option (List CNum)) : List CNum :=
  IbusO.getD (List.replicate V.length 0)

/-- `gbus = gen[on, GEN_BUS].astype(int)`: hosting buses of the
in-service generators, positionally aligned with `on`. -/
def gbusOf (gen0 : List GenR) : List ℕ :=
  (onIdx gen0).map (fun i => (gen0.getD i default).bus)

/-- `out = find(branch[:, BR_STATUS] == 0)`: the out-of-service
branches. -/
def outBr (branch0 : List BrR) : List ℕ :=
  (List.range branch0.length).filter (fun i => decide ((branch0.getD i default).status = 0))

/-- Branch flow computation:
`Sf = V[branch[br, F_BUS]] * conj(Yf[br, :] * V) * baseMVA` (likewise
`St`), written into `[PF, QF, PT, QT]` of the in-service branches;
out-of-service branches get all four fields zeroed (a no-op where this
is reached, since `out` must be empty). -/
def flowsBr (base : ℚ) (Yf Yt : ℕ → ℕ → CNum) (V : List CNum) (branch0 : List BrR) :
    List BrR :=
  mapWithIdx (fun i b =>
    if b.status = 0 then { b with pf := 0, qf := 0, pt := 0, qt := 0 }
    else
      { b with
          pf := (CNum.rmul (V.getD b.fbus default * CNum.conj (dotRow Yf i V)) base).re,
          qf := (CNum.rmul (V.getD b.fbus default * CNum.conj (dotRow Yf i V)) base).im,
          pt := (CNum.rmul (V.getD b.tbus default * CNum.conj (dotRow Yt i V)) base).re,
          qt := (CNum.rmul (V.getD b.tbus default * CNum.conj (dotRow Yt i V)) base).im })
    0 branch0

/-- `pfsoln`: updates the bus, generator and branch tables to match the
power-flow solution `V`; returns the updated tables, or the raised
exception.  The voltage update, `Sbus` computation, `_update_q` and
`_update_p` of the source appear here as the corresponding arguments;
`if len(out): raise RuntimeError` is the `outBr` test. -/
def pfsoln (fabs fangle : CNum → ℚ) (fpi base : ℚ)
    (bus0 : List BusR) (gen0 : List GenR) (branch0 : List BrR)
    (Ybus Yf Yt : ℕ → ℕ → CNum) (V : List CNum) (ref refGens : List ℕ)
    (IbusO : Option (List CNum)) : Except PfErr (List BusR × List GenR × List BrR) :=
  match updateP base (updateV fabs fangle fpi bus0 V)
      (updateQ base (updateV fabs fangle fpi bus0 V) gen0
        (SbusFun Ybus (resolveIbus V IbusO) V))
      ref (gbusOf gen0) (onIdx gen0)
      ((gbusOf gen0).map (SbusFun Ybus (resolveIbus V IbusO) V)) refGens with
  | .error e => .error e
  | .ok gen2 =>
    if outBr branch0 = [] then
      .ok (updateV fabs fangle fpi bus0 V, gen2, flowsBr base Yf Yt V branch0)
    else .error .runtimeErr

/-- `Qg_tot[b]` after the equal split: the value of
`(Cg.T * gen[on, QG])[b]` at that point of `_update_q`. -/
def qtotAt (base : ℚ) (busT : List BusR) (Sb : ℕ → CNum) (gen : List GenR) (b : ℕ) : ℚ :=
  ((onAt gen b).map (fun i =>
    provQ base busT Sb ((gen.getD i default).bus) /
      (cntAt gen ((gen.getD i default).bus) : ℚ))).sum

/-- Closed form of the `QG` value `_update_q` leaves in row `i`. -/
def qval (base : ℚ) (busT : List BusR) (Sb : ℕ → CNum) (gen : List GenR) (i : ℕ) : ℚ :=
  let g := gen.getD i default
  if 0 < g.status then
    if 1 < (onIdx gen).length then
      if qminAt gen g.bus = qmaxAt gen g.bus then
        provQ base busT Sb g.bus / (cntAt gen g.bus : ℚ)
      else
        g.qmin +
          (qtotAt base busT Sb gen g.bus - qminAt gen g.bus) /
            (qmaxAt gen g.bus - qminAt gen g.bus + EPS) * (g.qmax - g.qmin)
    else provQ base busT Sb g.bus
  else 0

/-- Sum of `QG` over the in-service generators at bus `b`. -/
def qgSumAt (l : List GenR) (b : ℕ) : ℚ :=
  ((onAt l b).map (fun i => (l.getD i default).qg)).sum

/-- Rows agree on every column except `QG` and `PG`. -/
def coreEq (a b : GenR) : Prop :=
  a.bus = b.bus ∧ a.status = b.status ∧ a.qmin = b.qmin ∧ a.qmax = b.qmax

/-- Tables of equal length whose rows agree outside `QG`/`PG`. -/
def coreTableEq (x y : List GenR) : Prop :=
  x.length = y.length ∧ ∀ i : ℕ, coreEq (x.getD i default) (y.getD i default)

/-- Tables of equal length whose rows agree outside `PG`. -/
def eqExceptPg (x y : List GenR) : Prop :=
  x.length = y.length ∧ ∀ i : ℕ,
    coreEq (x.getD i default) (y.getD i default) ∧
    (x.getD i default).qg = (y.getD i default).qg

/-- The value `_update_p` writes at reference bus `r`, reading the `PG`
column of `g0`. -/
def valAt (base : ℚ) (busT : List BusR) (gbus : List ℕ) (Sbus : List CNum)
    (refGens : List ℕ) (g0 : List GenR) (r : ℕ) : ℚ :=
  if 1 < (gensAtB gbus r).length then
    (pBusAt base busT gbus Sbus r -
        ((pvAtB gbus refGens r).map (fun k => (g0.getD k default).pg)).sum) /
      ((extAtB gbus refGens r).length : ℚ)
  else pBusAt base busT gbus Sbus r

/-- The row indices `_update_p` writes at reference bus `r` when
`on = range` (every generator in service). -/
def writesAt (gbus refGens : List ℕ) (r : ℕ) : List ℕ :=
  if 1 < (gensAtB gbus r).length then extAtB gbus refGens r
  else [(List.range gbus.length).getD ((gensAtB gbus r).getD 0 0) 0]

instance {e a : Type} [DecidableEq e] [DecidableEq a] : DecidableEq (Except e a) := fun x y =>
  match x, y with
  | .ok u, .ok v => if h : u = v then .isTrue (by rw [h]) else .isFalse (by simp [h])
  | .error u, .error v => if h : u = v then .isTrue (by rw [h]) else .isFalse (by simp [h])
  | .ok _, .error _ => .isFalse (by simp)
  | .error _, .ok _ => .isFalse (by simp)

theorem length_mapWithIdx {α : Type} (f : ℕ → α → α) (i : ℕ) (l : List α) :
    (mapWithIdx f i l).length = l.length := by
  induction l generalizing i with
  | nil => rfl
  | cons a t ih => simp [mapWithIdx, ih]

theorem getD_mapWithIdx {α : Type} (f : ℕ → α → α) (i j : ℕ) (l : List α) (d : α)
    (h : j < l.length) :
    (mapWithIdx f i l).getD j d = f (i + j) (l.getD j d) := by
  induction l generalizing i j with
  | nil => simp at h
  | cons a t ih =>
    cases j with
    | zero => simp [mapWithIdx]
    | succ j' =>
      simp only [mapWithIdx, List.getD_cons_succ]
      rw [ih (i + 1) j' (by simpa using h)]
      congr 1
      omega

theorem getD_map_lt {α β : Type} (f : α → β) (l : List α) (j : ℕ) (d : α) (d' : β)
    (h : j < l.length) :
    (l.map f).getD j d' = f (l.getD j d) := by
  induction l generalizing j with
  | nil => simp at h
  | cons a t ih =>
    cases j with
    | zero => simp
    | succ j' =>
      simp only [List.map_cons, List.getD_cons_succ]
      exact ih j' (by simpa using h)

theorem getD_len_le {α : Type} (l : List α) (j : ℕ) (d : α) (h : l.length ≤ j) :
    l.getD j d = d := by
  induction l generalizing j with
  | nil => simp [List.getD]
  | cons a t ih =>
    cases j with
    | zero => simp at h
    | succ j' => simpa using ih j' (by simpa using h)

theorem cnum_add_re (x y : CNum) : (x + y).re = x.re + y.re := rfl

theorem cnum_add_im (x y : CNum) : (x + y).im = x.im + y.im := rfl

theorem cnum_sub_re (x y : CNum) : (x - y).re = x.re - y.re := rfl

theorem cnum_sub_im (x y : CNum) : (x - y).im = x.im - y.im := rfl

theorem cnum_mul_re (x y : CNum) : (x * y).re = x.re * y.re - x.im * y.im := rfl

theorem cnum_mul_im (x y : CNum) : (x * y).im = x.re * y.im + x.im * y.re := rfl

theorem cnum_zero_re : (0 : CNum).re = 0 := rfl

theorem cnum_zero_im : (0 : CNum).im = 0 := rfl

theorem mem_onIdx {gen : List GenR} {i : ℕ} :
    i ∈ onIdx gen ↔ i < gen.length ∧ 0 < (gen.getD i default).status := by
  simp [onIdx, List.mem_filter, List.mem_range]

theorem mem_onAt {gen : List GenR} {b i : ℕ} :
    i ∈ onAt gen b ↔
      i < gen.length ∧ 0 < (gen.getD i default).status ∧ (gen.getD i default).bus = b := by
  simp [onAt, List.mem_filter, mem_onIdx, and_assoc]

theorem nodup_onIdx (gen : List GenR) : (onIdx gen).Nodup :=
  (List.nodup_range _).filter _

theorem nodup_onAt (gen : List GenR) (b : ℕ) : (onAt gen b).Nodup :=
  (nodup_onIdx gen).filter _

theorem sum_map_add_q {α : Type} (l : List α) (f g : α → ℚ) :
    (l.map (fun a => f a + g a)).sum = (l.map f).sum + (l.map g).sum := by
  induction l with
  | nil => simp
  | cons a t ih => simp [ih]; ring

theorem sum_map_mul_left_q {α : Type} (l : List α) (c : ℚ) (f : α → ℚ) :
    (l.map (fun a => c * f a)).sum = c * (l.map f).sum := by
  induction l with
  | nil => simp
  | cons a t ih => simp [ih]; ring

theorem sum_map_const_q {α : Type} (l : List α) (c : ℚ) :
    (l.map (fun _ => c)).sum = (l.length : ℚ) * c := by
  induction l with
  | nil => simp
  | cons a t ih =>
    simp [ih]
    ring



theorem coreEq_refl (a : GenR) : coreEq a a := ⟨rfl, rfl, rfl, rfl⟩

theorem coreTableEq_refl (x : List GenR) : coreTableEq x x :=
  ⟨rfl, fun i => coreEq_refl _⟩

theorem coreEq_trans {a b c : GenR} (h1 : coreEq a b) (h2 : coreEq b c) : coreEq a c :=
  ⟨h1.1.trans h2.1, h1.2.1.trans h2.2.1, h1.2.2.1.trans h2.2.2.1, h1.2.2.2.trans h2.2.2.2⟩

theorem coreTableEq_trans {x y z : List GenR} (h1 : coreTableEq x y) (h2 : coreTableEq y z) :
    coreTableEq x z :=
  ⟨h1.1.trans h2.1, fun i => coreEq_trans (h1.2 i) (h2.2 i)⟩

theorem onIdx_congr {x y : List GenR} (h : coreTableEq x y) : onIdx x = onIdx y := by
  unfold onIdx
  rw [h.1]
  apply List.filter_congr
  intro i hi
  rw [(h.2 i).2.1]

theorem onAt_congr {x y : List GenR} (h : coreTableEq x y) (b : ℕ) : onAt x b = onAt y b := by
  unfold onAt
  rw [onIdx_congr h]
  apply List.filter_congr
  intro i hi
  rw [(h.2 i).1]

theorem cntAt_congr {x y : List GenR} (h : coreTableEq x y) (b : ℕ) : cntAt x b = cntAt y b := by
  unfold cntAt
  rw [onAt_congr h]

theorem qminAt_congr {x y : List GenR} (h : coreTableEq x y) (b : ℕ) :
    qminAt x b = qminAt y b := by
  unfold qminAt
  rw [onAt_congr h]
  apply congrArg
  apply List.map_congr_left
  intro i hi
  rw [(h.2 i).2.2.1]

theorem qmaxAt_congr {x y : List GenR} (h : coreTableEq x y) (b : ℕ) :
    qmaxAt x b = qmaxAt y b := by
  unfold qmaxAt
  rw [onAt_congr h]
  apply congrArg
  apply List.map_congr_left
  intro i hi
  rw [(h.2 i).2.2.2]

theorem qtotAt_congr (base : ℚ) (busT : List BusR) (Sb : ℕ → CNum) {x y : List GenR}
    (h : coreTableEq x y) (b : ℕ) :
    qtotAt base busT Sb x b = qtotAt base busT Sb y b := by
  unfold qtotAt
  rw [onAt_congr h]
  apply congrArg
  apply List.map_congr_left
  intro i hi
  rw [(h.2 i).1, cntAt_congr h]

theorem qval_congr (base : ℚ) (busT : List BusR) (Sb : ℕ → CNum) {x y : List GenR}
    (h : coreTableEq x y) (i : ℕ) :
    qval base busT Sb x i = qval base busT Sb y i := by
  simp only [qval, (h.2 i).1, (h.2 i).2.1, (h.2 i).2.2.1, (h.2 i).2.2.2,
    onIdx_congr h, qminAt_congr h, qmaxAt_congr h, qtotAt_congr base busT Sb h,
    cntAt_congr h]

theorem updQ1_length (base : ℚ) (busT : List BusR) (Sb : ℕ → CNum) (gen : List GenR) :
    (updQ1 base busT Sb gen).length = gen.length := by
  simp [updQ1]

theorem updQ2_length (gen gen1 : List GenR) : (updQ2 gen gen1).length = gen1.length := by
  simp [updQ2]

theorem updQ3_length (gen gen2 : List GenR) : (updQ3 gen gen2).length = gen2.length := by
  simp [updQ3]

theorem updateQ_length (base : ℚ) (busT : List BusR) (gen : List GenR) (Sb : ℕ → CNum) :
    (updateQ base busT gen Sb).length = gen.length := by
  unfold updateQ
  split <;> simp [updQ3_length, updQ2_length, updQ1_length]

theorem updQ1_getD (base : ℚ) (busT : List BusR) (Sb : ℕ → CNum) (gen : List GenR)
    (i : ℕ) (h : i < gen.length) :
    (updQ1 base busT Sb gen).getD i default =
      (if 0 < (gen.getD i default).status then
        { gen.getD i default with qg := provQ base busT Sb (gen.getD i default).bus }
      else { gen.getD i default with qg := 0 }) := by
  unfold updQ1
  exact getD_map_lt _ _ i default default h

theorem updQ12_getD (base : ℚ) (busT : List BusR) (Sb : ℕ → CNum) (gen : List GenR)
    (i : ℕ) (h : i < gen.length) :
    (updQ2 gen (updQ1 base busT Sb gen)).getD i default =
      (if 0 < (gen.getD i default).status then
        { gen.getD i default with
            qg := provQ base busT Sb (gen.getD i default).bus /
              (cntAt gen (gen.getD i default).bus : ℚ) }
      else { gen.getD i default with qg := 0 }) := by
  unfold updQ2
  rw [getD_map_lt _ _ i default default (by rw [updQ1_length]; exact h)]
  rw [updQ1_getD base busT Sb gen i h]
  generalize gen.getD i default = g
  by_cases hst : 0 < g.status <;> simp [hst]

theorem qtot_pass2 (base : ℚ) (busT : List BusR) (Sb : ℕ → CNum) (gen : List GenR) (b : ℕ) :
    ((onAt gen b).map
      (fun j => ((updQ2 gen (updQ1 base busT Sb gen))[j]?.getD default).qg)).sum =
      qtotAt base busT Sb gen b := by
  unfold qtotAt
  apply congrArg
  apply List.map_congr_left
  intro j hj
  obtain ⟨hlt, hst, hbus⟩ := mem_onAt.mp hj
  have hd : (updQ2 gen (updQ1 base busT Sb gen))[j]?.getD default
      = (updQ2 gen (updQ1 base busT Sb gen)).getD j default :=
    (List.getD_eq_getElem?_getD _ _ _).symm
  rw [hd, updQ12_getD base busT Sb gen j hlt, if_pos hst]

theorem updateQ_getD (base : ℚ) (busT : List BusR) (Sb : ℕ → CNum) (gen : List GenR)
    (i : ℕ) (h : i < gen.length) :
    (updateQ base busT gen Sb).getD i default =
      { gen.getD i default with qg := qval base busT Sb gen i } := by
  unfold updateQ qval
  by_cases hc : 1 < (onIdx gen).length
  · simp only [if_pos hc]
    unfold updQ3
    rw [getD_map_lt _ _ i default default
      (by rw [updQ2_length, updQ1_length]; exact h)]
    rw [updQ12_getD base busT Sb gen i h]
    generalize gen.getD i default = g
    by_cases hst : 0 < g.status
    · by_cases hr : qminAt gen g.bus = qmaxAt gen g.bus
      · simp [hst, hr]
      · simp [hst, hr, qtot_pass2]
    · simp [hst]
  · simp only [if_neg hc]
    rw [updQ1_getD base busT Sb gen i h]
    generalize gen.getD i default = g
    by_cases hst : 0 < g.status <;> simp [hst]

theorem updateQ_coreTableEq (base : ℚ) (busT : List BusR) (gen : List GenR) (Sb : ℕ → CNum) :
    coreTableEq (updateQ base busT gen Sb) gen := by
  refine ⟨updateQ_length base busT gen Sb, fun i => ?_⟩
  by_cases h : i < gen.length
  · rw [updateQ_getD base busT Sb gen i h]
    exact ⟨rfl, rfl, rfl, rfl⟩
  · rw [getD_len_le _ _ _ (by rw [updateQ_length]; omega),
      getD_len_le _ _ _ (by omega)]
    exact coreEq_refl _

theorem updateQ_pg (base : ℚ) (busT : List BusR) (gen : List GenR) (Sb : ℕ → CNum) (i : ℕ) :
    ((updateQ base busT gen Sb).getD i default).pg = (gen.getD i default).pg := by
  by_cases h : i < gen.length
  · rw [updateQ_getD base busT Sb gen i h]
  · rw [getD_len_le _ _ _ (by rw [updateQ_length]; omega),
      getD_len_le _ _ _ (by omega)]

theorem updateQ_qg (base : ℚ) (busT : List BusR) (gen : List GenR) (Sb : ℕ → CNum)
    (i : ℕ) (h : i < gen.length) :
    ((updateQ base busT gen Sb).getD i default).qg = qval base busT Sb gen i := by
  rw [updateQ_getD base busT Sb gen i h]

theorem list_ext_getD {α : Type} [Inhabited α] (x y : List α) (hl : x.length = y.length)
    (h : ∀ i : ℕ, i < x.length → x.getD i default = y.getD i default) : x = y := by
  apply List.ext_getElem hl
  intro i h1 h2
  have hh := h i h1
  rwa [List.getD_eq_getElem x default h1, List.getD_eq_getElem y default h2] at hh

theorem updateV_length (fabs fangle : CNum → ℚ) (fpi : ℚ) (busT : List BusR) (V : List CNum) :
    (updateV fabs fangle fpi busT V).length = busT.length := by
  simp [updateV, length_mapWithIdx]

theorem updateV_getD (fabs fangle : CNum → ℚ) (fpi : ℚ) (busT : List BusR) (V : List CNum)
    (i : ℕ) (h : i < busT.length) :
    (updateV fabs fangle fpi busT V).getD i default =
      { busT.getD i default with vm := fabs (V.getD i default),
                                 va := fangle (V.getD i default) * 180 / fpi } := by
  unfold updateV
  rw [getD_mapWithIdx _ 0 i _ default h]
  simp

theorem updateV_qd (fabs fangle : CNum → ℚ) (fpi : ℚ) (busT : List BusR) (V : List CNum)
    (i : ℕ) :
    ((updateV fabs fangle fpi busT V).getD i default).qd = (busT.getD i default).qd := by
  by_cases h : i < busT.length
  · rw [updateV_getD fabs fangle fpi busT V i h]
  · rw [getD_len_le _ _ _ (by rw [updateV_length]; omega), getD_len_le _ _ _ (by omega)]

theorem updateV_pd (fabs fangle : CNum → ℚ) (fpi : ℚ) (busT : List BusR) (V : List CNum)
    (i : ℕ) :
    ((updateV fabs fangle fpi busT V).getD i default).pd = (busT.getD i default).pd := by
  by_cases h : i < busT.length
  · rw [updateV_getD fabs fangle fpi busT V i h]
  · rw [getD_len_le _ _ _ (by rw [updateV_length]; omega), getD_len_le _ _ _ (by omega)]

theorem updateV_idem (fabs fangle : CNum → ℚ) (fpi : ℚ) (busT : List BusR) (V : List CNum) :
    updateV fabs fangle fpi (updateV fabs fangle fpi busT V) V =
      updateV fabs fangle fpi busT V := by
  apply list_ext_getD
  · rw [updateV_length, updateV_length]
  · intro i hi
    have h1 : i < busT.length := by
      rw [updateV_length, updateV_length] at hi; exact hi
    rw [updateV_getD fabs fangle fpi _ V i (by rw [updateV_length]; exact h1),
      updateV_getD fabs fangle fpi busT V i h1]

theorem setPgAt_length (gen : List GenR) (idxs : List ℕ) (v : ℚ) :
    (setPgAt gen idxs v).length = gen.length := by
  simp [setPgAt, length_mapWithIdx]

theorem setPgAt_getD (gen : List GenR) (idxs : List ℕ) (v : ℚ) (i : ℕ) (h : i < gen.length) :
    (setPgAt gen idxs v).getD i default =
      (if i ∈ idxs then { gen.getD i default with pg := v } else gen.getD i default) := by
  unfold setPgAt
  rw [getD_mapWithIdx _ 0 i _ default h]
  simp


theorem eqExceptPg_refl (x : List GenR) : eqExceptPg x x :=
  ⟨rfl, fun i => ⟨coreEq_refl _, rfl⟩⟩

theorem eqExceptPg_trans {x y z : List GenR} (h1 : eqExceptPg x y) (h2 : eqExceptPg y z) :
    eqExceptPg x z :=
  ⟨h1.1.trans h2.1, fun i =>
    ⟨coreEq_trans (h1.2 i).1 (h2.2 i).1, ((h1.2 i).2).trans ((h2.2 i).2)⟩⟩

theorem setPgAt_eqExceptPg (gen : List GenR) (idxs : List ℕ) (v : ℚ) :
    eqExceptPg (setPgAt gen idxs v) gen := by
  refine ⟨setPgAt_length gen idxs v, fun i => ?_⟩
  by_cases h : i < gen.length
  · rw [setPgAt_getD gen idxs v i h]
    split
    · exact ⟨⟨rfl, rfl, rfl, rfl⟩, rfl⟩
    · exact ⟨coreEq_refl _, rfl⟩
  · rw [getD_len_le _ _ _ (by rw [setPgAt_length]; omega), getD_len_le _ _ _ (by omega)]
    exact ⟨coreEq_refl _, rfl⟩

theorem setPgAt_pg_of_not_mem (gen : List GenR) (idxs : List ℕ) (v : ℚ) (i : ℕ)
    (h : ¬ i ∈ idxs) :
    ((setPgAt gen idxs v).getD i default).pg = (gen.getD i default).pg := by
  by_cases hl : i < gen.length
  · rw [setPgAt_getD gen idxs v i hl, if_neg h]
  · rw [getD_len_le _ _ _ (by rw [setPgAt_length]; omega), getD_len_le _ _ _ (by omega)]

theorem updatePStep_err_of_nil (base : ℚ) (busT : List BusR) (gbus onL : List ℕ)
    (Sbus : List CNum) (refGens : List ℕ) (genC : List GenR) (r : ℕ)
    (hg : gensAtB gbus r = []) :
    updatePStep base busT gbus onL Sbus refGens genC r = .error .indexErr := by
  unfold updatePStep
  simp [hg]

theorem updatePStep_ok_of_ne (base : ℚ) (busT : List BusR) (gbus onL : List ℕ)
    (Sbus : List CNum) (refGens : List ℕ) (genC : List GenR) (r : ℕ)
    (hg : gensAtB gbus r ≠ []) :
    ∃ g', updatePStep base busT gbus onL Sbus refGens genC r = .ok g' := by
  unfold updatePStep
  simp only [if_neg hg]
  split
  · exact ⟨_, rfl⟩
  · exact ⟨_, rfl⟩

theorem updatePStep_ok_eqExceptPg (base : ℚ) (busT : List BusR) (gbus onL : List ℕ)
    (Sbus : List CNum) (refGens : List ℕ) (genC : List GenR) (r : ℕ) (g' : List GenR)
    (h : updatePStep base busT gbus onL Sbus refGens genC r = .ok g') :
    eqExceptPg g' genC := by
  unfold updatePStep at h
  by_cases hg : gensAtB gbus r = []
  · simp [hg] at h
  · simp only [if_neg hg] at h
    split at h <;> (rw [Except.ok.injEq] at h; rw [← h]; exact setPgAt_eqExceptPg _ _ _)

theorem updatePLoop_ok_eqExceptPg (base : ℚ) (busT : List BusR) (gbus onL : List ℕ)
    (Sbus : List CNum) (refGens : List ℕ) :
    ∀ (refL : List ℕ) (genC g' : List GenR),
      updatePLoop base busT gbus onL Sbus refGens genC refL = .ok g' → eqExceptPg g' genC := by
  intro refL
  induction refL with
  | nil =>
    intro genC g' h
    rw [updatePLoop, Except.ok.injEq] at h
    rw [← h]
    exact eqExceptPg_refl _
  | cons r rest ih =>
    intro genC g' h
    rw [updatePLoop] at h
    cases hstep : updatePStep base busT gbus onL Sbus refGens genC r with
    | error e => rw [hstep] at h; exact absurd h (by simp)
    | ok g1 =>
      rw [hstep] at h
      exact eqExceptPg_trans (ih g1 g' h)
        (updatePStep_ok_eqExceptPg base busT gbus onL Sbus refGens genC r g1 hstep)

theorem updatePLoop_isOk_iff (base : ℚ) (busT : List BusR) (gbus onL : List ℕ)
    (Sbus : List CNum) (refGens : List ℕ) :
    ∀ (refL : List ℕ) (genC : List GenR),
      (updatePLoop base busT gbus onL Sbus refGens genC refL).isOk = true ↔
        ∀ r ∈ refL, gensAtB gbus r ≠ [] := by
  intro refL
  induction refL with
  | nil => intro genC; simp [updatePLoop, Except.isOk, Except.toBool]
  | cons r rest ih =>
    intro genC
    rw [updatePLoop]
    by_cases hg : gensAtB gbus r = []
    · rw [updatePStep_err_of_nil base busT gbus onL Sbus refGens genC r hg]
      simp [Except.isOk, Except.toBool, hg]
    · obtain ⟨g1, hstep⟩ := updatePStep_ok_of_ne base busT gbus onL Sbus refGens genC r hg
      rw [hstep]
      simp only [List.mem_cons]
      constructor
      · intro hOk r' hr'
        rcases hr' with hr' | hr'
        · rw [hr']; exact hg
        · exact ((ih g1).mp hOk) r' hr'
      · intro hall
        exact (ih g1).mpr (fun r' hr' => hall r' (Or.inr hr'))

theorem pfsoln_ok_elim (fabs fangle : CNum → ℚ) (fpi base : ℚ)
    (bus0 : List BusR) (gen0 : List GenR) (branch0 : List BrR)
    (Ybus Yf Yt : ℕ → ℕ → CNum) (V : List CNum) (ref refGens : List ℕ)
    (IbusO : Option (List CNum)) (busT : List BusR) (genT : List GenR) (brT : List BrR)
    (h : pfsoln fabs fangle fpi base bus0 gen0 branch0 Ybus Yf Yt V ref refGens IbusO =
      .ok (busT, genT, brT)) :
    busT = updateV fabs fangle fpi bus0 V ∧
    updateP base (updateV fabs fangle fpi bus0 V)
      (updateQ base (updateV fabs fangle fpi bus0 V) gen0
        (SbusFun Ybus (resolveIbus V IbusO) V))
      ref (gbusOf gen0) (onIdx gen0)
      ((gbusOf gen0).map (SbusFun Ybus (resolveIbus V IbusO) V)) refGens = .ok genT ∧
    outBr branch0 = [] ∧
    brT = flowsBr base Yf Yt V branch0 := by
  unfold pfsoln at h
  split at h
  · exact absurd h (by simp)
  · rename_i gen2 hU
    split at h
    · rename_i hout
      simp only [Except.ok.injEq, Prod.mk.injEq] at h
      exact ⟨h.1.symm, by rw [← h.2.1]; exact hU, hout, h.2.2.symm⟩
    · exact absurd h (by simp)

theorem mem_outBr {branch0 : List BrR} {i : ℕ} :
    i ∈ outBr branch0 ↔ i < branch0.length ∧ (branch0.getD i default).status = 0 := by
  simp [outBr, List.mem_filter, List.mem_range]

theorem mem_gensAtB {gbus : List ℕ} {r k : ℕ} :
    k ∈ gensAtB gbus r ↔ k < gbus.length ∧ gbus.getD k 0 = r := by
  simp [gensAtB, List.mem_filter, List.mem_range]

theorem gensAtB_gbusOf_ne_iff (gen0 : List GenR) (r : ℕ) :
    gensAtB (gbusOf gen0) r ≠ [] ↔
      ∃ i, i < gen0.length ∧ 0 < (gen0.getD i default).status ∧
        (gen0.getD i default).bus = r := by
  constructor
  · intro hne
    obtain ⟨k, hk'⟩ := List.exists_mem_of_ne_nil _ hne
    obtain ⟨hklen, hkr⟩ := mem_gensAtB.mp hk'
    have hklen' : k < (onIdx gen0).length := by
      simpa [gbusOf] using hklen
    have hbus : (gbusOf gen0).getD k 0 =
        (gen0.getD ((onIdx gen0).getD k 0 ) default).bus := by
      unfold gbusOf
      exact getD_map_lt _ _ k 0 0 hklen'
    have hmem : (onIdx gen0).getD k 0 ∈ onIdx gen0 := by
      rw [List.getD_eq_getElem _ 0 hklen']
      exact List.getElem_mem _
    obtain ⟨hlt, hst⟩ := mem_onIdx.mp hmem
    exact ⟨(onIdx gen0).getD k 0, hlt, hst, by rw [← hbus]; exact hkr⟩
  · intro ⟨i, hlt, hst, hbus⟩ hnil
    obtain ⟨k, hklt, hki⟩ := List.mem_iff_getElem.mp (mem_onIdx.mpr ⟨hlt, hst⟩)
    have hmem : k ∈ gensAtB (gbusOf gen0) r := by
      apply mem_gensAtB.mpr
      refine ⟨by simpa [gbusOf] using hklt, ?_⟩
      unfold gbusOf
      rw [getD_map_lt _ _ k 0 0 hklt, List.getD_eq_getElem _ 0 hklt, hki, hbus]
    rw [hnil] at hmem
    simp at hmem

/-- C3: an out-of-service branch in the branch table makes `pfsoln`
raise a fatal error instead of returning a result; equivalently the
routine returns normally only when every branch is in service. -/
theorem C3_out_branch_fatal (fabs fangle : CNum → ℚ) (fpi base : ℚ)
    (bus0 : List BusR) (gen0 : List GenR) (branch0 : List BrR)
    (Ybus Yf Yt : ℕ → ℕ → CNum) (V : List CNum) (ref refGens : List ℕ)
    (IbusO : Option (List CNum))
    (hbr : ∃ i, i < branch0.length ∧ (branch0.getD i default).status = 0) :
    (pfsoln fabs fangle fpi base bus0 gen0 branch0 Ybus Yf Yt V ref refGens IbusO).isOk
      = false := by
  have hout : outBr branch0 ≠ [] := by
    obtain ⟨i, hi, hs⟩ := hbr
    intro hnil
    have hmem : i ∈ outBr branch0 := mem_outBr.mpr ⟨hi, hs⟩
    rw [hnil] at hmem
    simp at hmem
  unfold pfsoln
  split
  · simp [Except.isOk, Except.toBool]
  · rw [if_neg hout]
    simp [Except.isOk, Except.toBool]

/-- Witness for C3: a table holding one out-of-service branch makes the
call fail. -/
theorem C3_out_branch_fatal_witness :
    (pfsoln (fun _ => 0) (fun _ => 0) 1 1 [⟨0, 0, 0, 0⟩] [⟨0, 1, 0, 0, 0, 0⟩]
      [⟨0, 0, 0, 0, 0, 0, 0⟩] (fun _ _ => 0) (fun _ _ => 0) (fun _ _ => 0)
      [⟨1, 0⟩] [0] [] none).isOk = false :=
  C3_out_branch_fatal (fun _ => 0) (fun _ => 0) 1 1 [⟨0, 0, 0, 0⟩] [⟨0, 1, 0, 0, 0, 0⟩]
    [⟨0, 0, 0, 0, 0, 0, 0⟩] (fun _ _ => 0) (fun _ _ => 0) (fun _ _ => 0)
    [⟨1, 0⟩] [0] [] none ⟨0, by decide, by decide⟩

/-- C4: on the success path, every branch (all of which are then in
service) gets `Pf, Qf, Pt, Qt` equal to the real and imaginary parts of
`Sf = V[from_bus] * conj(Yf_row . V) * baseMVA` and
`St = V[to_bus] * conj(Yt_row . V) * baseMVA`. -/
theorem C4_branch_flows (fabs fangle : CNum → ℚ) (fpi base : ℚ)
    (bus0 : List BusR) (gen0 : List GenR) (branch0 : List BrR)
    (Ybus Yf Yt : ℕ → ℕ → CNum) (V : List CNum) (ref refGens : List ℕ)
    (IbusO : Option (List CNum)) (busT : List BusR) (genT : List GenR) (brT : List BrR)
    (hok : pfsoln fabs fangle fpi base bus0 gen0 branch0 Ybus Yf Yt V ref refGens IbusO =
      .ok (busT, genT, brT))
    (i : ℕ) (hi : i < branch0.length) :
    (brT.getD i default).pf =
      (CNum.rmul (V.getD (branch0.getD i default).fbus default *
        CNum.conj (dotRow Yf i V)) base).re ∧
    (brT.getD i default).qf =
      (CNum.rmul (V.getD (branch0.getD i default).fbus default *
        CNum.conj (dotRow Yf i V)) base).im ∧
    (brT.getD i default).pt =
      (CNum.rmul (V.getD (branch0.getD i default).tbus default *
        CNum.conj (dotRow Yt i V)) base).re ∧
    (brT.getD i default).qt =
      (CNum.rmul (V.getD (branch0.getD i default).tbus default *
        CNum.conj (dotRow Yt i V)) base).im := by
  obtain ⟨-, -, hout, hbr⟩ := pfsoln_ok_elim fabs fangle fpi base bus0 gen0 branch0
    Ybus Yf Yt V ref refGens IbusO busT genT brT hok
  have hst : ¬ (branch0.getD i default).status = 0 := by
    intro h0
    have hmem : i ∈ outBr branch0 := mem_outBr.mpr ⟨hi, h0⟩
    rw [hout] at hmem
    simp at hmem
  rw [hbr]
  unfold flowsBr
  rw [getD_mapWithIdx _ 0 i _ default hi]
  simp only [Nat.zero_add]
  rw [if_neg hst]
  exact ⟨rfl, rfl, rfl, rfl⟩

/-- Witness for C4 on a one-branch network. -/
theorem C4_branch_flows_witness :
    ∃ busT genT brT,
      pfsoln (fun _ => 0) (fun _ => 0) 1 1 [⟨0, 0, 0, 0⟩] [⟨0, 1, 0, 0, 0, 0⟩]
        [⟨0, 0, 1, 0, 0, 0, 0⟩] (fun _ _ => 0) (fun _ _ => 0) (fun _ _ => 0)
        [⟨1, 0⟩] [0] [] none = .ok (busT, genT, brT) ∧
      ((brT.getD 0 default).pf =
        (CNum.rmul (([⟨1, 0⟩] : List CNum).getD
          (([⟨0, 0, 1, 0, 0, 0, 0⟩] : List BrR).getD 0 default).fbus default *
          CNum.conj (dotRow (fun _ _ => 0) 0 [⟨1, 0⟩])) 1).re ∧
      (brT.getD 0 default).qf =
        (CNum.rmul (([⟨1, 0⟩] : List CNum).getD
          (([⟨0, 0, 1, 0, 0, 0, 0⟩] : List BrR).getD 0 default).fbus default *
          CNum.conj (dotRow (fun _ _ => 0) 0 [⟨1, 0⟩])) 1).im ∧
      (brT.getD 0 default).pt =
        (CNum.rmul (([⟨1, 0⟩] : List CNum).getD
          (([⟨0, 0, 1, 0, 0, 0, 0⟩] : List BrR).getD 0 default).tbus default *
          CNum.conj (dotRow (fun _ _ => 0) 0 [⟨1, 0⟩])) 1).re ∧
      (brT.getD 0 default).qt =
        (CNum.rmul (([⟨1, 0⟩] : List CNum).getD
          (([⟨0, 0, 1, 0, 0, 0, 0⟩] : List BrR).getD 0 default).tbus default *
          CNum.conj (dotRow (fun _ _ => 0) 0 [⟨1, 0⟩])) 1).im) :=
  ⟨_, _, _, rfl, C4_branch_flows (fun _ => 0) (fun _ => 0) 1 1 [⟨0, 0, 0, 0⟩]
    [⟨0, 1, 0, 0, 0, 0⟩] [⟨0, 0, 1, 0, 0, 0, 0⟩] (fun _ _ => 0) (fun _ _ => 0)
    (fun _ _ => 0) [⟨1, 0⟩] [0] [] none _ _ _ rfl 0 (by decide)⟩

/-- C10: the slack update returns normally precisely when every
reference bus hosts at least one in-service generator; a reference bus
with none makes it fail on the empty-index access (`IndexError`)
rather than return. -/
theorem C10_ref_bus_precondition (base : ℚ) (busT : List BusR) (gen0 : List GenR)
    (genC : List GenR) (ref : List ℕ) (Sbus : List CNum) (refGens : List ℕ) :
    (updateP base busT genC ref (gbusOf gen0) (onIdx gen0) Sbus refGens).isOk = true ↔
      ∀ r ∈ ref, ∃ i, i < gen0.length ∧ 0 < (gen0.getD i default).status ∧
        (gen0.getD i default).bus = r := by
  unfold updateP
  rw [updatePLoop_isOk_iff]
  constructor
  · intro h r hr
    exact (gensAtB_gbusOf_ne_iff gen0 r).mp (h r hr)
  · intro h r hr
    exact (gensAtB_gbusOf_ne_iff gen0 r).mpr (h r hr)

theorem sum_map_sub_q {α : Type} (l : List α) (f g : α → ℚ) :
    (l.map (fun a => f a - g a)).sum = (l.map f).sum - (l.map g).sum := by
  induction l with
  | nil => simp
  | cons a t ih => simp [ih]; ring

theorem sum_affine_q (l : List ℕ) (gen : List GenR) (K : ℚ) :
    (l.map (fun i => (gen.getD i default).qmin +
      K * ((gen.getD i default).qmax - (gen.getD i default).qmin))).sum =
      (l.map (fun i => (gen.getD i default).qmin)).sum +
        K * ((l.map (fun i => (gen.getD i default).qmax)).sum -
          (l.map (fun i => (gen.getD i default).qmin)).sum) := by
  induction l with
  | nil => simp
  | cons a t ih =>
    rw [List.map_cons, List.map_cons, List.map_cons, List.sum_cons, List.sum_cons,
      List.sum_cons, ih]
    ring

theorem EPS_pos : (0 : ℚ) < EPS := by norm_num [EPS]

theorem qrange_nonneg (gen : List GenR) (b : ℕ)
    (hq : ∀ i ∈ onIdx gen, (gen.getD i default).qmin ≤ (gen.getD i default).qmax) :
    qminAt gen b ≤ qmaxAt gen b := by
  unfold qminAt qmaxAt
  apply List.sum_le_sum
  intro i hi
  exact hq i (List.mem_of_mem_filter hi)

theorem qval_onAt (base : ℚ) (busT : List BusR) (Sb : ℕ → CNum) (gen : List GenR)
    (b i : ℕ) (hi : i ∈ onAt gen b) :
    qval base busT Sb gen i =
      (if 1 < (onIdx gen).length then
        if qminAt gen b = qmaxAt gen b then
          provQ base busT Sb b / (cntAt gen b : ℚ)
        else
          (gen.getD i default).qmin +
            (qtotAt base busT Sb gen b - qminAt gen b) /
              (qmaxAt gen b - qminAt gen b + EPS) *
              ((gen.getD i default).qmax - (gen.getD i default).qmin)
      else provQ base busT Sb b) := by
  obtain ⟨hlt, hst, hbus⟩ := mem_onAt.mp hi
  simp only [qval]
  rw [hbus, if_pos hst]

theorem qtotAt_eq_prov (base : ℚ) (busT : List BusR) (Sb : ℕ → CNum) (gen : List GenR)
    (b : ℕ) (hb : onAt gen b ≠ []) :
    qtotAt base busT Sb gen b = provQ base busT Sb b := by
  unfold qtotAt
  have hmap : ∀ i ∈ onAt gen b,
      provQ base busT Sb ((gen.getD i default).bus) /
        (cntAt gen ((gen.getD i default).bus) : ℚ) =
      provQ base busT Sb b / (cntAt gen b : ℚ) := by
    intro i hi
    rw [(mem_onAt.mp hi).2.2]
  rw [List.map_congr_left hmap, sum_map_const_q]
  have hnpos : 0 < (onAt gen b).length := List.length_pos.mpr hb
  have hne : ((onAt gen b).length : ℚ) ≠ 0 := by
    exact_mod_cast Nat.pos_iff_ne_zero.mp hnpos
  unfold cntAt
  field_simp

theorem qvalSum_le (base : ℚ) (busT : List BusR) (Sb : ℕ → CNum) (gen : List GenR) (b : ℕ)
    (hq : ∀ i ∈ onIdx gen, (gen.getD i default).qmin ≤ (gen.getD i default).qmax)
    (hb : onAt gen b ≠ []) :
    |((onAt gen b).map (fun i => qval base busT Sb gen i)).sum - provQ base busT Sb b| ≤
      EPS * |provQ base busT Sb b - qminAt gen b| /
        (qmaxAt gen b - qminAt gen b + EPS) := by
  have hnpos : 0 < (onAt gen b).length := List.length_pos.mpr hb
  have hRnn : 0 ≤ qmaxAt gen b - qminAt gen b := by
    have := qrange_nonneg gen b hq
    linarith
  have hden : 0 < qmaxAt gen b - qminAt gen b + EPS := by
    have := EPS_pos
    linarith
  have hRHS : 0 ≤ EPS * |provQ base busT Sb b - qminAt gen b| /
      (qmaxAt gen b - qminAt gen b + EPS) := by
    apply div_nonneg
    · exact mul_nonneg (le_of_lt EPS_pos) (abs_nonneg _)
    · exact le_of_lt hden
  by_cases hc : 1 < (onIdx gen).length
  · by_cases hzr : qminAt gen b = qmaxAt gen b
    · have hmap : ∀ i ∈ onAt gen b, qval base busT Sb gen i =
          provQ base busT Sb b / (cntAt gen b : ℚ) := by
        intro i hi
        rw [qval_onAt base busT Sb gen b i hi, if_pos hc, if_pos hzr]
      rw [List.map_congr_left hmap, sum_map_const_q]
      have hne : ((onAt gen b).length : ℚ) ≠ 0 := by
        exact_mod_cast Nat.pos_iff_ne_zero.mp hnpos
      have hsum : ((onAt gen b).length : ℚ) *
          (provQ base busT Sb b / (cntAt gen b : ℚ)) = provQ base busT Sb b := by
        unfold cntAt
        field_simp
      rw [hsum]
      simpa using hRHS
    · have hmap : ∀ i ∈ onAt gen b, qval base busT Sb gen i =
          (gen.getD i default).qmin +
            (qtotAt base busT Sb gen b - qminAt gen b) /
              (qmaxAt gen b - qminAt gen b + EPS) *
              ((gen.getD i default).qmax - (gen.getD i default).qmin) := by
        intro i hi
        rw [qval_onAt base busT Sb gen b i hi, if_pos hc, if_neg hzr]
      rw [List.map_congr_left hmap, sum_affine_q]
      have hfold1 : ((onAt gen b).map (fun i => (gen.getD i default).qmin)).sum =
          qminAt gen b := rfl
      have hfold2 : ((onAt gen b).map (fun i => (gen.getD i default).qmax)).sum =
          qmaxAt gen b := rfl
      rw [hfold1, hfold2, qtotAt_eq_prov base busT Sb gen b hb]
      have hne : qmaxAt gen b - qminAt gen b + EPS ≠ 0 := ne_of_gt hden
      have heq : qminAt gen b + (provQ base busT Sb b - qminAt gen b) /
            (qmaxAt gen b - qminAt gen b + EPS) * (qmaxAt gen b - qminAt gen b) -
            provQ base busT Sb b =
          -((provQ base busT Sb b - qminAt gen b) * EPS /
            (qmaxAt gen b - qminAt gen b + EPS)) := by
        field_simp
        ring
      rw [heq, abs_neg, abs_div, abs_mul, abs_of_pos EPS_pos, abs_of_pos hden]
      apply le_of_eq
      ring
  · have hn1 : (onAt gen b).length ≤ (onIdx gen).length := List.length_filter_le _ _
    have hone : (onAt gen b).length = 1 := by omega
    have hmap : ∀ i ∈ onAt gen b, qval base busT Sb gen i = provQ base busT Sb b := by
      intro i hi
      rw [qval_onAt base busT Sb gen b i hi, if_neg hc]
    rw [List.map_congr_left hmap, sum_map_const_q, hone]
    simpa using hRHS

/-- C1: for every bus hosting at least one in-service generator, the
final `Qg` summed over the in-service generators at that bus matches
the injected reactive power `Im(V[b]*conj((Ybus*V)[b]-Ibus[b]))*baseMVA`
plus the local demand `Qd`, up to the `EPS`-sized error introduced by
the epsilon guard of the proportional split (the floating-point
tolerance); the bound holds for 1, 2 or N generators at the bus. -/
theorem C1_reactive_conservation (fabs fangle : CNum → ℚ) (fpi base : ℚ)
    (bus0 : List BusR) (gen0 : List GenR) (branch0 : List BrR)
    (Ybus Yf Yt : ℕ → ℕ → CNum) (V : List CNum) (ref refGens : List ℕ)
    (IbusO : Option (List CNum)) (busT : List BusR) (genT : List GenR) (brT : List BrR)
    (hok : pfsoln fabs fangle fpi base bus0 gen0 branch0 Ybus Yf Yt V ref refGens IbusO =
      .ok (busT, genT, brT))
    (hq : ∀ i ∈ onIdx gen0, (gen0.getD i default).qmin ≤ (gen0.getD i default).qmax)
    (b : ℕ) (hb : onAt gen0 b ≠ []) :
    |qgSumAt genT b -
        ((SbusFun Ybus (resolveIbus V IbusO) V b).im * base + (bus0.getD b default).qd)| ≤
      EPS * |(SbusFun Ybus (resolveIbus V IbusO) V b).im * base +
          (bus0.getD b default).qd - qminAt gen0 b| /
        (qmaxAt gen0 b - qminAt gen0 b + EPS) := by
  obtain ⟨hbusT, hU, hout, hbrT⟩ := pfsoln_ok_elim fabs fangle fpi base bus0 gen0 branch0
    Ybus Yf Yt V ref refGens IbusO busT genT brT hok
  set Sb := SbusFun Ybus (resolveIbus V IbusO) V with hSb
  set bus1 := updateV fabs fangle fpi bus0 V with hbus1
  set gen1 := updateQ base bus1 gen0 Sb with hgen1
  unfold updateP at hU
  have hP := updatePLoop_ok_eqExceptPg base bus1 (gbusOf gen0) (onIdx gen0)
    ((gbusOf gen0).map Sb) refGens ref gen1 genT hU
  have hQcore : coreTableEq gen1 gen0 := by
    rw [hgen1]
    exact updateQ_coreTableEq base bus1 gen0 Sb
  have hcoreT : coreTableEq genT gen0 :=
    coreTableEq_trans ⟨hP.1, fun i => (hP.2 i).1⟩ hQcore
  have honAt : onAt genT b = onAt gen0 b := onAt_congr hcoreT b
  have hqg : ∀ i ∈ onAt gen0 b, (genT.getD i default).qg = qval base bus1 Sb gen0 i := by
    intro i hi
    obtain ⟨hlt, -, -⟩ := mem_onAt.mp hi
    rw [(hP.2 i).2, hgen1]
    exact updateQ_qg base bus1 gen0 Sb i hlt
  have hsum : qgSumAt genT b =
      ((onAt gen0 b).map (fun i => qval base bus1 Sb gen0 i)).sum := by
    unfold qgSumAt
    rw [honAt]
    exact congrArg List.sum (List.map_congr_left hqg)
  have hprov : provQ base bus1 Sb b =
      (Sb b).im * base + (bus0.getD b default).qd := by
    unfold provQ
    rw [hbus1, updateV_qd]
  rw [hsum, ← hprov]
  exact qvalSum_le base bus1 Sb gen0 b hq hb

/-- Witness for C1: two generators with range `[0, 10]` sharing bus 0,
total demand 6 MVAr. -/
theorem C1_reactive_conservation_witness :
    ∃ busT genT brT,
      pfsoln (fun _ => 0) (fun _ => 0) 1 1 [⟨0, 0, 0, 6⟩, ⟨0, 0, 5, 0⟩]
        [⟨0, 1, 0, 0, 0, 10⟩, ⟨0, 1, 0, 0, 0, 10⟩, ⟨1, 1, 0, 0, 0, 0⟩] []
        (fun _ _ => 0) (fun _ _ => 0) (fun _ _ => 0) [⟨1, 0⟩, ⟨1, 0⟩] [1] [] none =
        .ok (busT, genT, brT) ∧
      |qgSumAt genT 0 -
          ((SbusFun (fun _ _ => 0) (resolveIbus [⟨1, 0⟩, ⟨1, 0⟩] none) [⟨1, 0⟩, ⟨1, 0⟩] 0).im
              * 1 +
            (([⟨0, 0, 0, 6⟩, ⟨0, 0, 5, 0⟩] : List BusR).getD 0 default).qd)| ≤
        EPS * |(SbusFun (fun _ _ => 0) (resolveIbus [⟨1, 0⟩, ⟨1, 0⟩] none)
              [⟨1, 0⟩, ⟨1, 0⟩] 0).im * 1 +
            (([⟨0, 0, 0, 6⟩, ⟨0, 0, 5, 0⟩] : List BusR).getD 0 default).qd -
            qminAt [⟨0, 1, 0, 0, 0, 10⟩, ⟨0, 1, 0, 0, 0, 10⟩, ⟨1, 1, 0, 0, 0, 0⟩] 0| /
          (qmaxAt [⟨0, 1, 0, 0, 0, 10⟩, ⟨0, 1, 0, 0, 0, 10⟩, ⟨1, 1, 0, 0, 0, 0⟩] 0 -
            qminAt [⟨0, 1, 0, 0, 0, 10⟩, ⟨0, 1, 0, 0, 0, 10⟩, ⟨1, 1, 0, 0, 0, 0⟩] 0 + EPS) :=
  ⟨_, _, _, rfl, C1_reactive_conservation (fun _ => 0) (fun _ => 0) 1 1
    [⟨0, 0, 0, 6⟩, ⟨0, 0, 5, 0⟩]
    [⟨0, 1, 0, 0, 0, 10⟩, ⟨0, 1, 0, 0, 0, 10⟩, ⟨1, 1, 0, 0, 0, 0⟩] []
    (fun _ _ => 0) (fun _ _ => 0) (fun _ _ => 0) [⟨1, 0⟩, ⟨1, 0⟩] [1] [] none
    _ _ _ rfl (by decide) 0 (by decide)⟩

theorem eq_singleton_of_mem_of_len_le {α : Type} {l : List α} {a : α}
    (h1 : l.length ≤ 1) (h2 : a ∈ l) : l = [a] := by
  match l with
  | [] => simp at h2
  | [x] =>
    simp at h2
    rw [h2]
  | x :: y :: t => simp at h1

theorem pfsoln_ok_qg (fabs fangle : CNum → ℚ) (fpi base : ℚ)
    (bus0 : List BusR) (gen0 : List GenR) (branch0 : List BrR)
    (Ybus Yf Yt : ℕ → ℕ → CNum) (V : List CNum) (ref refGens : List ℕ)
    (IbusO : Option (List CNum)) (busT : List BusR) (genT : List GenR) (brT : List BrR)
    (hok : pfsoln fabs fangle fpi base bus0 gen0 branch0 Ybus Yf Yt V ref refGens IbusO =
      .ok (busT, genT, brT))
    (i : ℕ) (hlt : i < gen0.length) :
    (genT.getD i default).qg =
      qval base (updateV fabs fangle fpi bus0 V) (SbusFun Ybus (resolveIbus V IbusO) V)
        gen0 i := by
  obtain ⟨hbusT, hU, hout, hbrT⟩ := pfsoln_ok_elim fabs fangle fpi base bus0 gen0 branch0
    Ybus Yf Yt V ref refGens IbusO busT genT brT hok
  unfold updateP at hU
  have hP := updatePLoop_ok_eqExceptPg base (updateV fabs fangle fpi bus0 V)
    (gbusOf gen0) (onIdx gen0)
    ((gbusOf gen0).map (SbusFun Ybus (resolveIbus V IbusO) V)) refGens ref
    (updateQ base (updateV fabs fangle fpi bus0 V) gen0
      (SbusFun Ybus (resolveIbus V IbusO) V)) genT hU
  rw [(hP.2 i).2]
  exact updateQ_qg base (updateV fabs fangle fpi bus0 V) gen0
    (SbusFun Ybus (resolveIbus V IbusO) V) i hlt

theorem pfsoln_ok_coreTableEq (fabs fangle : CNum → ℚ) (fpi base : ℚ)
    (bus0 : List BusR) (gen0 : List GenR) (branch0 : List BrR)
    (Ybus Yf Yt : ℕ → ℕ → CNum) (V : List CNum) (ref refGens : List ℕ)
    (IbusO : Option (List CNum)) (busT : List BusR) (genT : List GenR) (brT : List BrR)
    (hok : pfsoln fabs fangle fpi base bus0 gen0 branch0 Ybus Yf Yt V ref refGens IbusO =
      .ok (busT, genT, brT)) :
    coreTableEq genT gen0 := by
  obtain ⟨hbusT, hU, hout, hbrT⟩ := pfsoln_ok_elim fabs fangle fpi base bus0 gen0 branch0
    Ybus Yf Yt V ref refGens IbusO busT genT brT hok
  unfold updateP at hU
  have hP := updatePLoop_ok_eqExceptPg base (updateV fabs fangle fpi bus0 V)
    (gbusOf gen0) (onIdx gen0)
    ((gbusOf gen0).map (SbusFun Ybus (resolveIbus V IbusO) V)) refGens ref
    (updateQ base (updateV fabs fangle fpi bus0 V) gen0
      (SbusFun Ybus (resolveIbus V IbusO) V)) genT hU
  exact coreTableEq_trans ⟨hP.1, fun i => (hP.2 i).1⟩
    (updateQ_coreTableEq base (updateV fabs fangle fpi bus0 V) gen0
      (SbusFun Ybus (resolveIbus V IbusO) V))

/-- C5 counterexample: two in-service generators on two distinct buses
(so each bus hosts at most one), the first with `Qmin = 0 < Qmax = 1`;
its final `Qg` is `1/(1+EPS)`, not exactly the provisional value `1`. -/
theorem C5_counterexample :
    ∃ busT genT brT,
      pfsoln (fun _ => 0) (fun _ => 0) 1 1 [⟨0, 0, 0, 1⟩, ⟨0, 0, 0, 0⟩]
        [⟨0, 1, 0, 0, 0, 1⟩, ⟨1, 1, 0, 0, 0, 0⟩] [] (fun _ _ => 0) (fun _ _ => 0)
        (fun _ _ => 0) [⟨1, 0⟩, ⟨1, 0⟩] [1] [] none = .ok (busT, genT, brT) ∧
      (genT.getD 0 default).qg ≠
        (SbusFun (fun _ _ => 0) (resolveIbus [⟨1, 0⟩, ⟨1, 0⟩] none)
            [⟨1, 0⟩, ⟨1, 0⟩] 0).im * 1 +
          (([⟨0, 0, 0, 1⟩, ⟨0, 0, 0, 0⟩] : List BusR).getD 0 default).qd :=
  ⟨_, _, _, rfl, by
    norm_num [pfsoln, updateP, updatePLoop, updatePStep, updateQ, updQ1, updQ2, updQ3,
      updateV, onIdx, onAt, cntAt, qminAt, qmaxAt, provQ, qtotAt, SbusFun, dotRow,
      resolveIbus, gbusOf, outBr, flowsBr, mapWithIdx, setPgAt, gensAtB, extAtB,
      pvAtB, pBusAt, EPS,
      CNum.conj, CNum.rmul, cnum_add_re, cnum_add_im, cnum_sub_re, cnum_sub_im,
      cnum_mul_re, cnum_mul_im, cnum_zero_re, cnum_zero_im, List.range_succ,
      List.cons_ne_nil]⟩

/-- C5 (amended): when each bus hosts at most one in-service generator,
the equal split is trivial, but with more than one generator in service
system-wide the epsilon-guarded proportional pass still runs: a
generator with `Qmin = Qmax` keeps the provisional value verbatim,
while one with `Qmin < Qmax` ends at
`Qmin + (prov - Qmin)*(Qmax - Qmin)/(Qmax - Qmin + EPS)`; only when a
single generator is in service in the whole system is step 3 skipped
and the provisional value kept exactly. -/
theorem C5_amended_isolated_gens (fabs fangle : CNum → ℚ) (fpi base : ℚ)
    (bus0 : List BusR) (gen0 : List GenR) (branch0 : List BrR)
    (Ybus Yf Yt : ℕ → ℕ → CNum) (V : List CNum) (ref refGens : List ℕ)
    (IbusO : Option (List CNum)) (busT : List BusR) (genT : List GenR) (brT : List BrR)
    (hok : pfsoln fabs fangle fpi base bus0 gen0 branch0 Ybus Yf Yt V ref refGens IbusO =
      .ok (busT, genT, brT))
    (hsep : ∀ b ∈ gbusOf gen0, (onAt gen0 b).length ≤ 1)
    (i : ℕ) (hi : i ∈ onIdx gen0) :
    (genT.getD i default).qg =
      (if 1 < (onIdx gen0).length then
        if (gen0.getD i default).qmin = (gen0.getD i default).qmax then
          (SbusFun Ybus (resolveIbus V IbusO) V ((gen0.getD i default).bus)).im * base +
            (bus0.getD ((gen0.getD i default).bus) default).qd
        else
          (gen0.getD i default).qmin +
            ((SbusFun Ybus (resolveIbus V IbusO) V ((gen0.getD i default).bus)).im * base +
                (bus0.getD ((gen0.getD i default).bus) default).qd -
                (gen0.getD i default).qmin) /
              ((gen0.getD i default).qmax - (gen0.getD i default).qmin + EPS) *
              ((gen0.getD i default).qmax - (gen0.getD i default).qmin)
      else
        (SbusFun Ybus (resolveIbus V IbusO) V ((gen0.getD i default).bus)).im * base +
          (bus0.getD ((gen0.getD i default).bus) default).qd) := by
  obtain ⟨hlt, hst⟩ := mem_onIdx.mp hi
  rw [pfsoln_ok_qg fabs fangle fpi base bus0 gen0 branch0 Ybus Yf Yt V ref refGens IbusO
    busT genT brT hok i hlt]
  set b := (gen0.getD i default).bus with hbdef
  set Sb := SbusFun Ybus (resolveIbus V IbusO) V with hSb
  set bus1 := updateV fabs fangle fpi bus0 V with hbus1
  have hmem : i ∈ onAt gen0 b := mem_onAt.mpr ⟨hlt, hst, rfl⟩
  have hbin : b ∈ gbusOf gen0 := by
    unfold gbusOf
    exact List.mem_map.mpr ⟨i, hi, rfl⟩
  have hsingle : onAt gen0 b = [i] := eq_singleton_of_mem_of_len_le (hsep b hbin) hmem
  have hmin : qminAt gen0 b = (gen0.getD i default).qmin := by
    unfold qminAt
    rw [hsingle]
    simp
  have hmax : qmaxAt gen0 b = (gen0.getD i default).qmax := by
    unfold qmaxAt
    rw [hsingle]
    simp
  have hcnt : cntAt gen0 b = 1 := by
    unfold cntAt
    rw [hsingle]
    rfl
  have hne : onAt gen0 b ≠ [] := by
    rw [hsingle]
    simp
  have hqtot : qtotAt base bus1 Sb gen0 b = provQ base bus1 Sb b :=
    qtotAt_eq_prov base bus1 Sb gen0 b hne
  have hprov : provQ base bus1 Sb b = (Sb b).im * base + (bus0.getD b default).qd := by
    unfold provQ
    rw [hbus1, updateV_qd]
  simp only [qval]
  rw [← hbdef, if_pos hst, hmin, hmax, hcnt, hqtot, hprov]
  norm_num

/-- Witness for the amended C5: the counterexample configuration,
evaluated at generator 0 (alone at bus 0, `Qmin = 0 < Qmax = 1`). -/
theorem C5_amended_isolated_gens_witness :
    ∃ busT genT brT,
      pfsoln (fun _ => 0) (fun _ => 0) 1 1 [⟨0, 0, 0, 1⟩, ⟨0, 0, 0, 0⟩]
        [⟨0, 1, 0, 0, 0, 1⟩, ⟨1, 1, 0, 0, 0, 0⟩] [] (fun _ _ => 0) (fun _ _ => 0)
        (fun _ _ => 0) [⟨1, 0⟩, ⟨1, 0⟩] [1] [] none = .ok (busT, genT, brT) ∧
      (genT.getD 0 default).qg =
        (if 1 < (onIdx [⟨0, 1, 0, 0, 0, 1⟩, ⟨1, 1, 0, 0, 0, 0⟩]).length then
          if (([⟨0, 1, 0, 0, 0, 1⟩, ⟨1, 1, 0, 0, 0, 0⟩] : List GenR).getD 0 default).qmin =
              (([⟨0, 1, 0, 0, 0, 1⟩, ⟨1, 1, 0, 0, 0, 0⟩] : List GenR).getD 0 default).qmax then
            (SbusFun (fun _ _ => 0) (resolveIbus [⟨1, 0⟩, ⟨1, 0⟩] none) [⟨1, 0⟩, ⟨1, 0⟩]
                ((([⟨0, 1, 0, 0, 0, 1⟩, ⟨1, 1, 0, 0, 0, 0⟩] : List GenR).getD 0
                  default).bus)).im * 1 +
              (([⟨0, 0, 0, 1⟩, ⟨0, 0, 0, 0⟩] : List BusR).getD
                ((([⟨0, 1, 0, 0, 0, 1⟩, ⟨1, 1, 0, 0, 0, 0⟩] : List GenR).getD 0
                  default).bus) default).qd
          else
            (([⟨0, 1, 0, 0, 0, 1⟩, ⟨1, 1, 0, 0, 0, 0⟩] : List GenR).getD 0 default).qmin +
              ((SbusFun (fun _ _ => 0) (resolveIbus [⟨1, 0⟩, ⟨1, 0⟩] none) [⟨1, 0⟩, ⟨1, 0⟩]
                  ((([⟨0, 1, 0, 0, 0, 1⟩, ⟨1, 1, 0, 0, 0, 0⟩] : List GenR).getD 0
                    default).bus)).im * 1 +
                (([⟨0, 0, 0, 1⟩, ⟨0, 0, 0, 0⟩] : List BusR).getD
                  ((([⟨0, 1, 0, 0, 0, 1⟩, ⟨1, 1, 0, 0, 0, 0⟩] : List GenR).getD 0
                    default).bus) default).qd -
                (([⟨0, 1, 0, 0, 0, 1⟩, ⟨1, 1, 0, 0, 0, 0⟩] : List GenR).getD 0 default).qmin) /
                ((([⟨0, 1, 0, 0, 0, 1⟩, ⟨1, 1, 0, 0, 0, 0⟩] : List GenR).getD 0 default).qmax -
                  (([⟨0, 1, 0, 0, 0, 1⟩, ⟨1, 1, 0, 0, 0, 0⟩] : List GenR).getD 0 default).qmin +
                  EPS) *
                ((([⟨0, 1, 0, 0, 0, 1⟩, ⟨1, 1, 0, 0, 0, 0⟩] : List GenR).getD 0 default).qmax -
                  (([⟨0, 1, 0, 0, 0, 1⟩, ⟨1, 1, 0, 0, 0, 0⟩] : List GenR).getD 0 default).qmin)
        else
          (SbusFun (fun _ _ => 0) (resolveIbus [⟨1, 0⟩, ⟨1, 0⟩] none) [⟨1, 0⟩, ⟨1, 0⟩]
              ((([⟨0, 1, 0, 0, 0, 1⟩, ⟨1, 1, 0, 0, 0, 0⟩] : List GenR).getD 0
                default).bus)).im * 1 +
            (([⟨0, 0, 0, 1⟩, ⟨0, 0, 0, 0⟩] : List BusR).getD
              ((([⟨0, 1, 0, 0, 0, 1⟩, ⟨1, 1, 0, 0, 0, 0⟩] : List GenR).getD 0
                default).bus) default).qd) :=
  ⟨_, _, _, rfl, C5_amended_isolated_gens (fun _ => 0) (fun _ => 0) 1 1
    [⟨0, 0, 0, 1⟩, ⟨0, 0, 0, 0⟩] [⟨0, 1, 0, 0, 0, 1⟩, ⟨1, 1, 0, 0, 0, 0⟩] []
    (fun _ _ => 0) (fun _ _ => 0) (fun _ _ => 0) [⟨1, 0⟩, ⟨1, 0⟩] [1] [] none
    _ _ _ rfl (by decide) 0 (by decide)⟩

/-- C6: two in-service generators sharing one bus, both with
`Qmin = Qmax`: each ends with exactly the equally split provisional bus
total (the epsilon-guarded proportional value is overwritten by the
saved equal-split values). -/
theorem C6_zero_range_pair (fabs fangle : CNum → ℚ) (fpi base : ℚ)
    (bus0 : List BusR) (gen0 : List GenR) (branch0 : List BrR)
    (Ybus Yf Yt : ℕ → ℕ → CNum) (V : List CNum) (ref refGens : List ℕ)
    (IbusO : Option (List CNum)) (busT : List BusR) (genT : List GenR) (brT : List BrR)
    (hok : pfsoln fabs fangle fpi base bus0 gen0 branch0 Ybus Yf Yt V ref refGens IbusO =
      .ok (busT, genT, brT))
    (i j b : ℕ) (hpair : onAt gen0 b = [i, j])
    (hmni : (gen0.getD i default).qmin = (gen0.getD i default).qmax)
    (hmnj : (gen0.getD j default).qmin = (gen0.getD j default).qmax) :
    (genT.getD i default).qg =
      ((SbusFun Ybus (resolveIbus V IbusO) V b).im * base + (bus0.getD b default).qd) / 2 ∧
    (genT.getD j default).qg =
      ((SbusFun Ybus (resolveIbus V IbusO) V b).im * base + (bus0.getD b default).qd) / 2 := by
  have hi : i ∈ onAt gen0 b := by rw [hpair]; simp
  have hj : j ∈ onAt gen0 b := by rw [hpair]; simp
  obtain ⟨hlti, hsti, hbi⟩ := mem_onAt.mp hi
  obtain ⟨hltj, hstj, hbj⟩ := mem_onAt.mp hj
  have hc : 1 < (onIdx gen0).length := by
    have hlen : (onAt gen0 b).length ≤ (onIdx gen0).length := List.length_filter_le _ _
    rw [hpair] at hlen
    simp at hlen
    omega
  have hzr : qminAt gen0 b = qmaxAt gen0 b := by
    unfold qminAt qmaxAt
    rw [hpair]
    simp only [List.map_cons, List.map_nil, List.sum_cons, List.sum_nil]
    rw [hmni, hmnj]
  have hcnt : cntAt gen0 b = 2 := by
    unfold cntAt
    rw [hpair]
    rfl
  set Sb := SbusFun Ybus (resolveIbus V IbusO) V with hSb
  set bus1 := updateV fabs fangle fpi bus0 V with hbus1
  have hprov : provQ base bus1 Sb b = (Sb b).im * base + (bus0.getD b default).qd := by
    unfold provQ
    rw [hbus1, updateV_qd]
  constructor
  · rw [pfsoln_ok_qg fabs fangle fpi base bus0 gen0 branch0 Ybus Yf Yt V ref refGens IbusO
      busT genT brT hok i hlti]
    rw [← hSb, ← hbus1, qval_onAt base bus1 Sb gen0 b i hi, if_pos hc, if_pos hzr,
      hcnt, hprov]
    norm_num
  · rw [pfsoln_ok_qg fabs fangle fpi base bus0 gen0 branch0 Ybus Yf Yt V ref refGens IbusO
      busT genT brT hok j hltj]
    rw [← hSb, ← hbus1, qval_onAt base bus1 Sb gen0 b j hj, if_pos hc, if_pos hzr,
      hcnt, hprov]
    norm_num

/-- Witness for C6: injected reactive power 6 at bus 0, two generators
with `Qmin = Qmax = 7` there; each is dispatched `Qg = 3`. -/
theorem C6_zero_range_pair_witness :
    ∃ busT genT brT,
      pfsoln (fun _ => 0) (fun _ => 0) 1 1 [⟨0, 0, 0, 6⟩, ⟨0, 0, 0, 0⟩]
        [⟨0, 1, 0, 0, 7, 7⟩, ⟨0, 1, 0, 0, 7, 7⟩, ⟨1, 1, 0, 0, 0, 0⟩] []
        (fun _ _ => 0) (fun _ _ => 0) (fun _ _ => 0) [⟨1, 0⟩, ⟨1, 0⟩] [1] [] none =
        .ok (busT, genT, brT) ∧
      ((genT.getD 0 default).qg =
        ((SbusFun (fun _ _ => 0) (resolveIbus [⟨1, 0⟩, ⟨1, 0⟩] none)
            [⟨1, 0⟩, ⟨1, 0⟩] 0).im * 1 +
          (([⟨0, 0, 0, 6⟩, ⟨0, 0, 0, 0⟩] : List BusR).getD 0 default).qd) / 2 ∧
      (genT.getD 1 default).qg =
        ((SbusFun (fun _ _ => 0) (resolveIbus [⟨1, 0⟩, ⟨1, 0⟩] none)
            [⟨1, 0⟩, ⟨1, 0⟩] 0).im * 1 +
          (([⟨0, 0, 0, 6⟩, ⟨0, 0, 0, 0⟩] : List BusR).getD 0 default).qd) / 2) :=
  ⟨_, _, _, rfl, C6_zero_range_pair (fun _ => 0) (fun _ => 0) 1 1
    [⟨0, 0, 0, 6⟩, ⟨0, 0, 0, 0⟩] [⟨0, 1, 0, 0, 7, 7⟩, ⟨0, 1, 0, 0, 7, 7⟩, ⟨1, 1, 0, 0, 0, 0⟩]
    [] (fun _ _ => 0) (fun _ _ => 0) (fun _ _ => 0) [⟨1, 0⟩, ⟨1, 0⟩] [1] [] none
    _ _ _ rfl 0 1 0 (by decide) (by decide) (by decide)⟩

theorem setPgAt_nil (gen : List GenR) (v : ℚ) : setPgAt gen [] v = gen := by
  unfold setPgAt
  have hgen : ∀ (n : ℕ) (l : List GenR),
      mapWithIdx (fun i g => if i ∈ ([] : List ℕ) then { g with pg := v } else g) n l = l := by
    intro n l
    induction l generalizing n with
    | nil => rfl
    | cons a t ih =>
      simp only [mapWithIdx]
      rw [ih (n + 1), if_neg (List.not_mem_nil n)]
  exact hgen 0 gen

/-- C7 counterexample: a reference bus with two in-service generators,
none of them in `ref_gens`.  The routine does not raise any error: it
returns normally, with both generators' `Pg` untouched (the empty-set
assignment is a silent no-op). -/
theorem C7_counterexample :
    ∃ busT genT brT,
      pfsoln (fun _ => 0) (fun _ => 0) 1 1 [⟨0, 0, 10, 0⟩]
        [⟨0, 1, 2, 0, 0, 0⟩, ⟨0, 1, 3, 0, 0, 0⟩] [] (fun _ _ => 0) (fun _ _ => 0)
        (fun _ _ => 0) [⟨1, 0⟩] [0] [] none = .ok (busT, genT, brT) ∧
      (genT.getD 0 default).pg = 2 ∧ (genT.getD 1 default).pg = 3 :=
  ⟨_, _, _, rfl, by
    norm_num [pfsoln, updateP, updatePLoop, updatePStep, updateQ, updQ1, updQ2, updQ3,
      updateV, onIdx, onAt, cntAt, qminAt, qmaxAt, provQ, qtotAt, SbusFun, dotRow,
      resolveIbus, gbusOf, outBr, flowsBr, mapWithIdx, setPgAt, gensAtB, extAtB,
      pvAtB, pBusAt, EPS,
      CNum.conj, CNum.rmul, cnum_add_re, cnum_add_im, cnum_sub_re, cnum_sub_im,
      cnum_mul_re, cnum_mul_im, cnum_zero_re, cnum_zero_im, List.range_succ,
      List.cons_ne_nil], by
    norm_num [pfsoln, updateP, updatePLoop, updatePStep, updateQ, updQ1, updQ2, updQ3,
      updateV, onIdx, onAt, cntAt, qminAt, qmaxAt, provQ, qtotAt, SbusFun, dotRow,
      resolveIbus, gbusOf, outBr, flowsBr, mapWithIdx, setPgAt, gensAtB, extAtB,
      pvAtB, pBusAt, EPS,
      CNum.conj, CNum.rmul, cnum_add_re, cnum_add_im, cnum_sub_re, cnum_sub_im,
      cnum_mul_re, cnum_mul_im, cnum_zero_re, cnum_zero_im, List.range_succ,
      List.cons_ne_nil]⟩

/-- C7 (amended): when a reference bus hosts more than one in-service
generator and none of them lies in `ref_gens`, the slack step performs
no check at all: the equal split targets an empty index set, nothing is
assigned (in particular no NaN/Inf is stored), and the step returns
normally with the generator table unchanged. -/
theorem C7_amended_empty_ext_noop (base : ℚ) (busT : List BusR) (gbus onL : List ℕ)
    (Sbus : List CNum) (refGens : List ℕ) (genC : List GenR) (r : ℕ)
    (hmulti : 1 < (gensAtB gbus r).length)
    (hext : extAtB gbus refGens r = []) :
    updatePStep base busT gbus onL Sbus refGens genC r = .ok genC := by
  have hne : gensAtB gbus r ≠ [] := by
    intro h
    rw [h] at hmulti
    simp at hmulti
  unfold updatePStep
  rw [if_neg hne, if_pos hmulti, hext]
  simp [setPgAt_nil]

/-- Witness for the amended C7: two in-service generators at reference
bus 0, empty `ref_gens`; the step returns the table unchanged. -/
theorem C7_amended_empty_ext_noop_witness :
    updatePStep 1 [⟨0, 0, 10, 0⟩] [0, 0] [0, 1] [⟨0, 0⟩] []
      [⟨0, 1, 2, 0, 0, 0⟩, ⟨0, 1, 3, 0, 0, 0⟩] 0 =
      .ok [⟨0, 1, 2, 0, 0, 0⟩, ⟨0, 1, 3, 0, 0, 0⟩] :=
  C7_amended_empty_ext_noop 1 [⟨0, 0, 10, 0⟩] [0, 0] [0, 1] [⟨0, 0⟩] []
    [⟨0, 1, 2, 0, 0, 0⟩, ⟨0, 1, 3, 0, 0, 0⟩] 0 (by decide) (by decide)

theorem getD_zero_mem {l : List ℕ} (h : l ≠ []) : l.getD 0 0 ∈ l := by
  match l with
  | [] => exact absurd rfl h
  | a :: t => simp

theorem updatePStep_pg_off (base : ℚ) (busT : List BusR) (Sbus : List CNum)
    (refGens : List ℕ) (gen0 genC : List GenR) (r : ℕ) (g' : List GenR)
    (hrg : ∀ g ∈ refGens, 0 < (gen0.getD g default).status)
    (h : updatePStep base busT (gbusOf gen0) (onIdx gen0) Sbus refGens genC r = .ok g')
    (i : ℕ) (hoff : ¬ 0 < (gen0.getD i default).status) :
    (g'.getD i default).pg = (genC.getD i default).pg := by
  unfold updatePStep at h
  by_cases hg : gensAtB (gbusOf gen0) r = []
  · simp [hg] at h
  · simp only [if_neg hg] at h
    split at h
    · rw [Except.ok.injEq] at h
      rw [← h]
      apply setPgAt_pg_of_not_mem
      intro hmem
      unfold extAtB at hmem
      have hfil := List.mem_filter.mp hmem
      exact hoff (hrg i (of_decide_eq_true hfil.2))
    · rw [Except.ok.injEq] at h
      rw [← h]
      apply setPgAt_pg_of_not_mem
      intro hmem
      have hieq : i = (onIdx gen0).getD ((gensAtB (gbusOf gen0) r).getD 0 0) 0 := by
        simpa using hmem
      have hk0 : (gensAtB (gbusOf gen0) r).getD 0 0 ∈ gensAtB (gbusOf gen0) r :=
        getD_zero_mem hg
      obtain ⟨hklen, -⟩ := mem_gensAtB.mp hk0
      have hklen' : (gensAtB (gbusOf gen0) r).getD 0 0 < (onIdx gen0).length := by
        simpa [gbusOf] using hklen
      have hon : (onIdx gen0).getD ((gensAtB (gbusOf gen0) r).getD 0 0) 0 ∈ onIdx gen0 := by
        rw [List.getD_eq_getElem _ 0 hklen']
        exact List.getElem_mem _
      obtain ⟨-, hst⟩ := mem_onIdx.mp hon
      rw [← hieq] at hst
      exact hoff hst

theorem updatePLoop_pg_off (base : ℚ) (busT : List BusR) (Sbus : List CNum)
    (refGens : List ℕ) (gen0 : List GenR)
    (hrg : ∀ g ∈ refGens, 0 < (gen0.getD g default).status) :
    ∀ (refL : List ℕ) (genC g' : List GenR),
      updatePLoop base busT (gbusOf gen0) (onIdx gen0) Sbus refGens genC refL = .ok g' →
      ∀ i : ℕ, ¬ 0 < (gen0.getD i default).status →
        (g'.getD i default).pg = (genC.getD i default).pg := by
  intro refL
  induction refL with
  | nil =>
    intro genC g' h i hoff
    rw [updatePLoop, Except.ok.injEq] at h
    rw [← h]
  | cons r rest ih =>
    intro genC g' h i hoff
    rw [updatePLoop] at h
    cases hstep : updatePStep base busT (gbusOf gen0) (onIdx gen0) Sbus refGens genC r with
    | error e =>
      rw [hstep] at h
      exact absurd h (by simp)
    | ok g1 =>
      rw [hstep] at h
      rw [ih g1 g' h i hoff]
      exact updatePStep_pg_off base busT Sbus refGens gen0 genC r g1 hrg hstep i hoff

/-- C8 counterexample: generator 0 is out of service (`Pg = 7` at call
time), but `ref_gens = [0]` collides with the position list of the two
in-service generators at the reference bus, so the slack update writes
the out-of-service generator's `Pg` (it becomes 6). -/
theorem C8_counterexample :
    ∃ busT genT brT,
      pfsoln (fun _ => 0) (fun _ => 0) 1 1 [⟨0, 0, 10, 0⟩]
        [⟨0, 0, 7, 0, 0, 0⟩, ⟨0, 1, 4, 0, 0, 0⟩, ⟨0, 1, 0, 0, 0, 0⟩] []
        (fun _ _ => 0) (fun _ _ => 0) (fun _ _ => 0) [⟨1, 0⟩] [0] [0] none =
        .ok (busT, genT, brT) ∧
      ¬ 0 < (([⟨0, 0, 7, 0, 0, 0⟩, ⟨0, 1, 4, 0, 0, 0⟩, ⟨0, 1, 0, 0, 0, 0⟩] :
        List GenR).getD 0 default).status ∧
      (genT.getD 0 default).pg ≠
        (([⟨0, 0, 7, 0, 0, 0⟩, ⟨0, 1, 4, 0, 0, 0⟩, ⟨0, 1, 0, 0, 0, 0⟩] :
          List GenR).getD 0 default).pg :=
  ⟨_, _, _, rfl, by decide, by
    norm_num [pfsoln, updateP, updatePLoop, updatePStep, updateQ, updQ1, updQ2, updQ3,
      updateV, onIdx, onAt, cntAt, qminAt, qmaxAt, provQ, qtotAt, SbusFun, dotRow,
      resolveIbus, gbusOf, outBr, flowsBr, mapWithIdx, setPgAt, gensAtB, extAtB,
      pvAtB, pBusAt, EPS,
      CNum.conj, CNum.rmul, cnum_add_re, cnum_add_im, cnum_sub_re, cnum_sub_im,
      cnum_mul_re, cnum_mul_im, cnum_zero_re, cnum_zero_im, List.range_succ,
      List.cons_ne_nil]⟩

/-- C8 (amended): provided every index in `ref_gens` designates an
in-service generator row, every out-of-service generator ends the call
with `Qg = 0` and all of its other columns (including `Pg`) exactly as
at call time. -/
theorem C8_amended_frame (fabs fangle : CNum → ℚ) (fpi base : ℚ)
    (bus0 : List BusR) (gen0 : List GenR) (branch0 : List BrR)
    (Ybus Yf Yt : ℕ → ℕ → CNum) (V : List CNum) (ref refGens : List ℕ)
    (IbusO : Option (List CNum)) (busT : List BusR) (genT : List GenR) (brT : List BrR)
    (hok : pfsoln fabs fangle fpi base bus0 gen0 branch0 Ybus Yf Yt V ref refGens IbusO =
      .ok (busT, genT, brT))
    (hrg : ∀ g ∈ refGens, 0 < (gen0.getD g default).status)
    (i : ℕ) (hoff : ¬ 0 < (gen0.getD i default).status) :
    (genT.getD i default).qg = 0 ∧
    (genT.getD i default).pg = (gen0.getD i default).pg ∧
    (genT.getD i default).bus = (gen0.getD i default).bus ∧
    (genT.getD i default).status = (gen0.getD i default).status ∧
    (genT.getD i default).qmin = (gen0.getD i default).qmin ∧
    (genT.getD i default).qmax = (gen0.getD i default).qmax := by
  have hcore := pfsoln_ok_coreTableEq fabs fangle fpi base bus0 gen0 branch0 Ybus Yf Yt V
    ref refGens IbusO busT genT brT hok
  obtain ⟨hbusT, hU, hout, hbrT⟩ := pfsoln_ok_elim fabs fangle fpi base bus0 gen0 branch0
    Ybus Yf Yt V ref refGens IbusO busT genT brT hok
  unfold updateP at hU
  refine ⟨?_, ?_, (hcore.2 i).1, (hcore.2 i).2.1, (hcore.2 i).2.2.1, (hcore.2 i).2.2.2⟩
  · by_cases hlt : i < gen0.length
    · rw [pfsoln_ok_qg fabs fangle fpi base bus0 gen0 branch0 Ybus Yf Yt V ref refGens
        IbusO busT genT brT hok i hlt]
      simp only [qval]
      rw [if_neg hoff]
    · have hP := updatePLoop_ok_eqExceptPg base (updateV fabs fangle fpi bus0 V)
        (gbusOf gen0) (onIdx gen0)
        ((gbusOf gen0).map (SbusFun Ybus (resolveIbus V IbusO) V)) refGens ref
        (updateQ base (updateV fabs fangle fpi bus0 V) gen0
          (SbusFun Ybus (resolveIbus V IbusO) V)) genT hU
      rw [(hP.2 i).2, getD_len_le _ _ _ (by rw [updateQ_length]; omega)]
      rfl
  · rw [updatePLoop_pg_off base (updateV fabs fangle fpi bus0 V)
      ((gbusOf gen0).map (SbusFun Ybus (resolveIbus V IbusO) V)) refGens gen0 hrg ref
      (updateQ base (updateV fabs fangle fpi bus0 V) gen0
        (SbusFun Ybus (resolveIbus V IbusO) V)) genT hU i hoff]
    exact updateQ_pg base (updateV fabs fangle fpi bus0 V) gen0
      (SbusFun Ybus (resolveIbus V IbusO) V) i

/-- Witness for the amended C8: with `ref_gens = [1]` (in service), the
out-of-service generator 0 keeps `Pg = 7` and gets `Qg = 0`. -/
theorem C8_amended_frame_witness :
    ∃ busT genT brT,
      pfsoln (fun _ => 0) (fun _ => 0) 1 1 [⟨0, 0, 10, 0⟩]
        [⟨0, 0, 7, 0, 0, 0⟩, ⟨0, 1, 4, 0, 0, 0⟩, ⟨0, 1, 0, 0, 0, 0⟩] []
        (fun _ _ => 0) (fun _ _ => 0) (fun _ _ => 0) [⟨1, 0⟩] [0] [1] none =
        .ok (busT, genT, brT) ∧
      ((genT.getD 0 default).qg = 0 ∧
      (genT.getD 0 default).pg =
        (([⟨0, 0, 7, 0, 0, 0⟩, ⟨0, 1, 4, 0, 0, 0⟩, ⟨0, 1, 0, 0, 0, 0⟩] :
          List GenR).getD 0 default).pg ∧
      (genT.getD 0 default).bus =
        (([⟨0, 0, 7, 0, 0, 0⟩, ⟨0, 1, 4, 0, 0, 0⟩, ⟨0, 1, 0, 0, 0, 0⟩] :
          List GenR).getD 0 default).bus ∧
      (genT.getD 0 default).status =
        (([⟨0, 0, 7, 0, 0, 0⟩, ⟨0, 1, 4, 0, 0, 0⟩, ⟨0, 1, 0, 0, 0, 0⟩] :
          List GenR).getD 0 default).status ∧
      (genT.getD 0 default).qmin =
        (([⟨0, 0, 7, 0, 0, 0⟩, ⟨0, 1, 4, 0, 0, 0⟩, ⟨0, 1, 0, 0, 0, 0⟩] :
          List GenR).getD 0 default).qmin ∧
      (genT.getD 0 default).qmax =
        (([⟨0, 0, 7, 0, 0, 0⟩, ⟨0, 1, 4, 0, 0, 0⟩, ⟨0, 1, 0, 0, 0, 0⟩] :
          List GenR).getD 0 default).qmax) :=
  ⟨_, _, _, rfl, C8_amended_frame (fun _ => 0) (fun _ => 0) 1 1 [⟨0, 0, 10, 0⟩]
    [⟨0, 0, 7, 0, 0, 0⟩, ⟨0, 1, 4, 0, 0, 0⟩, ⟨0, 1, 0, 0, 0, 0⟩] []
    (fun _ _ => 0) (fun _ _ => 0) (fun _ _ => 0) [⟨1, 0⟩] [0] [1] none
    _ _ _ rfl (by decide) 0 (by decide)⟩

/-- C2 (code bug): at a reference bus with two in-service generators
(`gen 1` is the `ref_gens` member, `gen 2` keeps `Pg = 5`) and an
out-of-service `gen 0` (`Pg = 7`) earlier in the table, the source
subtracts `gen[pv_gens, PG]` with `pv_gens` holding positions into
`on`, i.e. it reads `Pg` of the out-of-service generator 0 instead of
generator 2.  The fixed-injection generator gets `P_bus - 7 = 3`, and
the bus total `3 + 5` misses `P_bus = 10`. -/
theorem C2_code_divergence :
    ∃ busT genT brT,
      pfsoln (fun _ => 0) (fun _ => 0) 1 1 [⟨0, 0, 10, 0⟩, ⟨0, 0, 0, 0⟩, ⟨0, 0, 0, 0⟩]
        [⟨2, 0, 7, 0, 0, 0⟩, ⟨0, 1, 0, 0, 0, 0⟩, ⟨0, 1, 5, 0, 0, 0⟩] []
        (fun _ _ => 0) (fun _ _ => 0) (fun _ _ => 0) [⟨1, 0⟩, ⟨1, 0⟩, ⟨1, 0⟩]
        [0] [1] none = .ok (busT, genT, brT) ∧
      (genT.getD 1 default).pg + (genT.getD 2 default).pg ≠
        (SbusFun (fun _ _ => 0) (resolveIbus [⟨1, 0⟩, ⟨1, 0⟩, ⟨1, 0⟩] none)
            [⟨1, 0⟩, ⟨1, 0⟩, ⟨1, 0⟩] 0).re * 1 +
          (([⟨0, 0, 10, 0⟩, ⟨0, 0, 0, 0⟩, ⟨0, 0, 0, 0⟩] : List BusR).getD 0 default).pd ∧
      (genT.getD 1 default).pg =
        ((SbusFun (fun _ _ => 0) (resolveIbus [⟨1, 0⟩, ⟨1, 0⟩, ⟨1, 0⟩] none)
            [⟨1, 0⟩, ⟨1, 0⟩, ⟨1, 0⟩] 0).re * 1 +
          (([⟨0, 0, 10, 0⟩, ⟨0, 0, 0, 0⟩, ⟨0, 0, 0, 0⟩] : List BusR).getD 0 default).pd) -
          (([⟨2, 0, 7, 0, 0, 0⟩, ⟨0, 1, 0, 0, 0, 0⟩, ⟨0, 1, 5, 0, 0, 0⟩] :
            List GenR).getD 0 default).pg :=
  ⟨_, _, _, rfl, by
    norm_num [pfsoln, updateP, updatePLoop, updatePStep, updateQ, updQ1, updQ2, updQ3,
      updateV, onIdx, onAt, cntAt, qminAt, qmaxAt, provQ, qtotAt, SbusFun, dotRow,
      resolveIbus, gbusOf, outBr, flowsBr, mapWithIdx, setPgAt, gensAtB, extAtB,
      pvAtB, pBusAt, EPS,
      CNum.conj, CNum.rmul, cnum_add_re, cnum_add_im, cnum_sub_re, cnum_sub_im,
      cnum_mul_re, cnum_mul_im, cnum_zero_re, cnum_zero_im, List.range_succ,
      List.cons_ne_nil], by
    norm_num [pfsoln, updateP, updatePLoop, updatePStep, updateQ, updQ1, updQ2, updQ3,
      updateV, onIdx, onAt, cntAt, qminAt, qmaxAt, provQ, qtotAt, SbusFun, dotRow,
      resolveIbus, gbusOf, outBr, flowsBr, mapWithIdx, setPgAt, gensAtB, extAtB,
      pvAtB, pBusAt, EPS,
      CNum.conj, CNum.rmul, cnum_add_re, cnum_add_im, cnum_sub_re, cnum_sub_im,
      cnum_mul_re, cnum_mul_im, cnum_zero_re, cnum_zero_im, List.range_succ,
      List.cons_ne_nil]⟩




theorem setPgAt_pg_of_mem (gen : List GenR) (idxs : List ℕ) (v : ℚ) (i : ℕ)
    (h : i ∈ idxs) (hl : i < gen.length) :
    ((setPgAt gen idxs v).getD i default).pg = v := by
  rw [setPgAt_getD gen idxs v i hl, if_pos h]

theorem range_getD (m k : ℕ) (h : k < m) : (List.range m).getD k 0 = k := by
  rw [List.getD_eq_getElem _ 0 (by simpa using h)]
  simp

theorem updatePStep_eq_setPg (base : ℚ) (busT : List BusR) (gbus : List ℕ)
    (Sbus : List CNum) (refGens : List ℕ) (genC : List GenR) (r : ℕ)
    (hne : gensAtB gbus r ≠ []) :
    updatePStep base busT gbus (List.range gbus.length) Sbus refGens genC r =
      .ok (setPgAt genC (writesAt gbus refGens r)
        (valAt base busT gbus Sbus refGens genC r)) := by
  unfold updatePStep writesAt valAt
  rw [if_neg hne]
  by_cases hm : 1 < (gensAtB gbus r).length <;> simp [hm]

theorem mem_writesAt {gbus refGens : List ℕ} {r i : ℕ}
    (hne : gensAtB gbus r ≠ []) (hw : i ∈ writesAt gbus refGens r) :
    i < gbus.length ∧ gbus.getD i 0 = r ∧
      (i ∈ refGens ∨ ¬ 1 < (gensAtB gbus r).length) := by
  unfold writesAt at hw
  split at hw
  · rename_i hm
    have hf := List.mem_filter.mp hw
    obtain ⟨hlt, hbus⟩ := mem_gensAtB.mp hf.1
    exact ⟨hlt, hbus, Or.inl (of_decide_eq_true hf.2)⟩
  · rename_i hm
    have hk0 : (gensAtB gbus r).getD 0 0 ∈ gensAtB gbus r := getD_zero_mem hne
    obtain ⟨hklt, hkbus⟩ := mem_gensAtB.mp hk0
    have hieq : i = (gensAtB gbus r).getD 0 0 := by
      rw [range_getD gbus.length _ hklt] at hw
      simpa using hw
    rw [hieq]
    exact ⟨hklt, hkbus, Or.inr hm⟩

theorem updatePLoop_char (base : ℚ) (busT : List BusR) (gbus : List ℕ)
    (Sbus : List CNum) (refGens : List ℕ) (g0 : List GenR) :
    ∀ (refL : List ℕ) (s : List GenR),
      s.length = g0.length →
      (∀ k : ℕ, ¬ k ∈ refGens → 1 < (gensAtB gbus (gbus.getD k 0)).length →
        (s.getD k default).pg = (g0.getD k default).pg) →
      (∀ r ∈ refL, gensAtB gbus r ≠ []) →
      ∃ out, updatePLoop base busT gbus (List.range gbus.length) Sbus refGens s refL =
          .ok out ∧
        out.length = s.length ∧
        ∀ i : ℕ, (out.getD i default).pg =
          (if i < s.length ∧ ∃ r ∈ refL, i ∈ writesAt gbus refGens r
           then valAt base busT gbus Sbus refGens g0 (gbus.getD i 0)
           else (s.getD i default).pg) := by
  intro refL
  induction refL with
  | nil =>
    intro s hlen hagree hrefok
    refine ⟨s, by rw [updatePLoop], rfl, ?_⟩
    intro i
    simp
  | cons r rest ih =>
    intro s hlen hagree hrefok
    have hner : gensAtB gbus r ≠ [] := hrefok r (List.mem_cons_self r rest)
    have hval : valAt base busT gbus Sbus refGens s r =
        valAt base busT gbus Sbus refGens g0 r := by
      unfold valAt
      split
      · rename_i hm
        congr 2
        apply congrArg
        apply List.map_congr_left
        intro k hk
        have hkg := List.mem_filter.mp hk
        have hkr : gbus.getD k 0 = r := (mem_gensAtB.mp hkg.1).2
        have hknot : ¬ k ∈ refGens := by
          have hne2 := of_decide_eq_true hkg.2
          intro hin
          exact hne2 (List.mem_filter.mpr ⟨hkg.1, decide_eq_true hin⟩)
        exact hagree k hknot (by rw [hkr]; exact hm)
      · rfl
    rw [updatePLoop, updatePStep_eq_setPg base busT gbus Sbus refGens s r hner]
    set s1 := setPgAt s (writesAt gbus refGens r)
      (valAt base busT gbus Sbus refGens s r) with hs1
    have hlen1s : s1.length = s.length := by
      rw [hs1]
      exact setPgAt_length _ _ _
    have hlen1 : s1.length = g0.length := by rw [hlen1s]; exact hlen
    have hagree1 : ∀ k : ℕ, ¬ k ∈ refGens →
        1 < (gensAtB gbus (gbus.getD k 0)).length →
        (s1.getD k default).pg = (g0.getD k default).pg := by
      intro k hk hm
      rw [hs1, setPgAt_pg_of_not_mem]
      · exact hagree k hk hm
      · intro hwk
        obtain ⟨-, hkbus, hKor⟩ := mem_writesAt hner hwk
        rcases hKor with h1 | h1
        · exact hk h1
        · rw [hkbus] at hm
          exact h1 hm
    obtain ⟨out, hloop, hlenout, hchar⟩ := ih s1 hlen1 hagree1
      (fun r' hr' => hrefok r' (List.mem_cons_of_mem r hr'))
    refine ⟨out, hloop, by rw [hlenout, hlen1s], ?_⟩
    intro i
    rw [hchar i]
    by_cases hi : i < s.length
    · by_cases hrest : ∃ r' ∈ rest, i ∈ writesAt gbus refGens r'
      · rw [if_pos ⟨by rw [hlen1s]; exact hi, hrest⟩]
        obtain ⟨r', hr', hwr'⟩ := hrest
        rw [if_pos ⟨hi, r', List.mem_cons_of_mem r hr', hwr'⟩]
      · by_cases hw : i ∈ writesAt gbus refGens r
        · rw [if_neg (by rintro ⟨-, hex⟩; exact hrest hex),
            if_pos ⟨hi, r, List.mem_cons_self r rest, hw⟩]
          rw [hs1, setPgAt_pg_of_mem _ _ _ _ hw hi, hval]
          obtain ⟨-, hkbus, -⟩ := mem_writesAt hner hw
          rw [hkbus]
        · rw [if_neg (by rintro ⟨-, hex⟩; exact hrest hex)]
          rw [if_neg (by
            rintro ⟨-, r', hr', hwr'⟩
            rcases List.mem_cons.mp hr' with h1 | h1
            · rw [h1] at hwr'
              exact hw hwr'
            · exact hrest ⟨r', h1, hwr'⟩)]
          rw [hs1, setPgAt_pg_of_not_mem _ _ _ _ hw]
    · rw [if_neg (by rintro ⟨h1, -⟩; rw [hlen1s] at h1; exact hi h1),
        if_neg (by rintro ⟨h1, -⟩; exact hi h1)]
      rw [getD_len_le s1 i default (by rw [hlen1s]; omega),
        getD_len_le s i default (by omega)]

theorem genR_ext {a b : GenR} (h1 : a.bus = b.bus) (h2 : a.status = b.status)
    (h3 : a.pg = b.pg) (h4 : a.qg = b.qg) (h5 : a.qmin = b.qmin) (h6 : a.qmax = b.qmax) :
    a = b := by
  cases a
  cases b
  simp_all

theorem onIdx_all_on (gen : List GenR) (hall : ∀ g ∈ gen, 0 < g.status) :
    onIdx gen = List.range gen.length := by
  unfold onIdx
  apply List.filter_eq_self.mpr
  intro i hi
  apply decide_eq_true
  apply hall
  rw [List.getD_eq_getElem _ _ (List.mem_range.mp hi)]
  exact List.getElem_mem _

theorem gbusOf_congr {x y : List GenR} (h : coreTableEq x y) : gbusOf x = gbusOf y := by
  unfold gbusOf
  rw [onIdx_congr h]
  apply List.map_congr_left
  intro i hi
  exact (h.2 i).1

theorem flowsBr_length (base : ℚ) (Yf Yt : ℕ → ℕ → CNum) (V : List CNum)
    (branch0 : List BrR) : (flowsBr base Yf Yt V branch0).length = branch0.length := by
  simp [flowsBr, length_mapWithIdx]

theorem flowsBr_getD (base : ℚ) (Yf Yt : ℕ → ℕ → CNum) (V : List CNum)
    (branch0 : List BrR) (i : ℕ) (h : i < branch0.length) :
    (flowsBr base Yf Yt V branch0).getD i default =
      (if (branch0.getD i default).status = 0 then
        { branch0.getD i default with pf := 0, qf := 0, pt := 0, qt := 0 }
      else
        { branch0.getD i default with
            pf := (CNum.rmul (V.getD (branch0.getD i default).fbus default *
              CNum.conj (dotRow Yf i V)) base).re,
            qf := (CNum.rmul (V.getD (branch0.getD i default).fbus default *
              CNum.conj (dotRow Yf i V)) base).im,
            pt := (CNum.rmul (V.getD (branch0.getD i default).tbus default *
              CNum.conj (dotRow Yt i V)) base).re,
            qt := (CNum.rmul (V.getD (branch0.getD i default).tbus default *
              CNum.conj (dotRow Yt i V)) base).im }) := by
  unfold flowsBr
  rw [getD_mapWithIdx _ 0 i _ default h]
  simp only [Nat.zero_add]

theorem flowsBr_status (base : ℚ) (Yf Yt : ℕ → ℕ → CNum) (V : List CNum)
    (branch0 : List BrR) (i : ℕ) :
    ((flowsBr base Yf Yt V branch0).getD i default).status =
      (branch0.getD i default).status := by
  by_cases h : i < branch0.length
  · rw [flowsBr_getD base Yf Yt V branch0 i h]
    split <;> rfl
  · rw [getD_len_le _ _ _ (by rw [flowsBr_length]; omega), getD_len_le _ _ _ (by omega)]

theorem outBr_flowsBr (base : ℚ) (Yf Yt : ℕ → ℕ → CNum) (V : List CNum)
    (branch0 : List BrR) :
    outBr (flowsBr base Yf Yt V branch0) = outBr branch0 := by
  unfold outBr
  rw [flowsBr_length]
  apply List.filter_congr
  intro i hi
  rw [flowsBr_status]

theorem flowsBr_idem (base : ℚ) (Yf Yt : ℕ → ℕ → CNum) (V : List CNum)
    (branch0 : List BrR) :
    flowsBr base Yf Yt V (flowsBr base Yf Yt V branch0) =
      flowsBr base Yf Yt V branch0 := by
  apply list_ext_getD
  · rw [flowsBr_length, flowsBr_length]
  · intro i hi
    have h1 : i < branch0.length := by
      rw [flowsBr_length, flowsBr_length] at hi
      exact hi
    rw [flowsBr_getD base Yf Yt V _ i (by rw [flowsBr_length]; exact h1),
      flowsBr_getD base Yf Yt V branch0 i h1]
    generalize branch0.getD i default = b
    by_cases hst : b.status = 0
    · simp [hst]
    · simp [hst]

/-- C9 (amended): with every generator in service (so that the position
space of `gens_at_bus` coincides with the generator index space), the
routine is idempotent:  calling it again on its own output tables, with
the same `V`, matrices, `ref`, `ref_gens` and `Ibus`, reproduces those
tables exactly. -/
theorem C9_amended_idempotent (fabs fangle : CNum → ℚ) (fpi base : ℚ)
    (bus0 : List BusR) (gen0 : List GenR) (branch0 : List BrR)
    (Ybus Yf Yt : ℕ → ℕ → CNum) (V : List CNum) (ref refGens : List ℕ)
    (IbusO : Option (List CNum)) (busT : List BusR) (genT : List GenR) (brT : List BrR)
    (hall : ∀ g ∈ gen0, 0 < g.status)
    (hok : pfsoln fabs fangle fpi base bus0 gen0 branch0 Ybus Yf Yt V ref refGens IbusO =
      .ok (busT, genT, brT)) :
    pfsoln fabs fangle fpi base busT genT brT Ybus Yf Yt V ref refGens IbusO =
      .ok (busT, genT, brT) := by
  obtain ⟨hbusT, hU, hout, hbrT⟩ := pfsoln_ok_elim fabs fangle fpi base bus0 gen0 branch0
    Ybus Yf Yt V ref refGens IbusO busT genT brT hok
  have hcore : coreTableEq genT gen0 := pfsoln_ok_coreTableEq fabs fangle fpi base bus0
    gen0 branch0 Ybus Yf Yt V ref refGens IbusO busT genT brT hok
  have hlenT : genT.length = gen0.length := hcore.1
  unfold updateP at hU
  unfold pfsoln
  set Sb := SbusFun Ybus (resolveIbus V IbusO) V with hSb
  have hV2 : updateV fabs fangle fpi busT V = busT := by
    rw [hbusT, updateV_idem]
  have honIdx : onIdx genT = onIdx gen0 := onIdx_congr hcore
  have hgbus : gbusOf genT = gbusOf gen0 := gbusOf_congr hcore
  have hrange : onIdx gen0 = List.range (gbusOf gen0).length := by
    have hlg : (gbusOf gen0).length = gen0.length := by
      unfold gbusOf
      rw [List.length_map, onIdx_all_on gen0 hall, List.length_range]
    rw [onIdx_all_on gen0 hall, hlg]
  rw [← hbusT, hrange] at hU
  set gen1 := updateQ base busT gen0 Sb with hgen1
  have hrefok : ∀ r ∈ ref, gensAtB (gbusOf gen0) r ≠ [] :=
    (updatePLoop_isOk_iff base busT (gbusOf gen0) (List.range (gbusOf gen0).length)
      ((gbusOf gen0).map Sb) refGens ref gen1).mp (by rw [hU]; rfl)
  obtain ⟨out1, hloop1, hlen1, hchar1⟩ := updatePLoop_char base busT (gbusOf gen0)
    ((gbusOf gen0).map Sb) refGens gen1 ref gen1 rfl (fun k hk hm => rfl) hrefok
  have hout1 : out1 = genT := by
    have heq := hloop1.symm.trans hU
    simpa using heq
  rw [hout1] at hloop1 hlen1 hchar1
  have hagree2 : ∀ k : ℕ, ¬ k ∈ refGens →
      1 < (gensAtB (gbusOf gen0) ((gbusOf gen0).getD k 0)).length →
      (genT.getD k default).pg = (gen1.getD k default).pg := by
    intro k hk hm
    rw [hchar1 k]
    split
    · rename_i hcond
      obtain ⟨hklen, r, hr, hw⟩ := hcond
      obtain ⟨-, hkbus, hKor⟩ := mem_writesAt (hrefok r hr) hw
      rcases hKor with h1 | h1
      · exact absurd h1 hk
      · rw [hkbus] at hm
        exact absurd hm h1
    · rfl
  obtain ⟨out2, hloop2, hlen2, hchar2⟩ := updatePLoop_char base busT (gbusOf gen0)
    ((gbusOf gen0).map Sb) refGens gen1 ref genT hlen1 hagree2 hrefok
  have hout2 : out2 = genT := by
    have hEx := updatePLoop_ok_eqExceptPg base busT (gbusOf gen0)
      (List.range (gbusOf gen0).length) ((gbusOf gen0).map Sb) refGens ref genT out2
      hloop2
    apply list_ext_getD
    · exact hlen2
    · intro i hi
      apply genR_ext ((hEx.2 i).1).1 ((hEx.2 i).1).2.1 ?_ (hEx.2 i).2
        ((hEx.2 i).1).2.2.1 ((hEx.2 i).1).2.2.2
      rw [hchar2 i]
      split
      · rename_i hcond
        obtain ⟨hi', hex⟩ := hcond
        rw [hchar1 i, if_pos ⟨by rw [← hlen1]; exact hi', hex⟩]
      · rfl
  have hQ2 : updateQ base busT genT Sb = genT := by
    apply list_ext_getD
    · rw [updateQ_length]
    · intro i hi
      have hi' : i < genT.length := by rwa [updateQ_length] at hi
      have hi0 : i < gen0.length := by rwa [hlenT] at hi'
      rw [updateQ_getD base busT Sb genT i hi']
      have hqv : qval base busT Sb genT i = (genT.getD i default).qg := by
        rw [qval_congr base busT Sb hcore i,
          pfsoln_ok_qg fabs fangle fpi base bus0 gen0 branch0 Ybus Yf Yt V ref refGens
            IbusO busT genT brT hok i hi0, ← hSb, ← hbusT]
      rw [hqv]
  rw [hV2, hQ2, honIdx, hgbus, hrange]
  have hP2 : updateP base busT genT ref (gbusOf gen0)
      (List.range (gbusOf gen0).length) ((gbusOf gen0).map Sb) refGens = .ok genT := by
    unfold updateP
    rw [hloop2, hout2]
  rw [hP2]
  have houtBr : outBr brT = [] := by
    rw [hbrT, outBr_flowsBr, hout]
  have hfl : flowsBr base Yf Yt V brT = brT := by
    rw [hbrT, flowsBr_idem]
  show (if outBr brT = [] then Except.ok (busT, genT, flowsBr base Yf Yt V brT)
    else Except.error PfErr.runtimeErr) = Except.ok (busT, genT, brT)
  rw [if_pos houtBr, hfl]

/-- C9 counterexample: generator 0 is out of service, so positions and
indices diverge; the slack loop reads `Pg` of row 3 (alias of position
3 at the multi-generator reference bus 0) which the single-generator
reference bus 1 rewrites.  The second call therefore reads a different
`Pg` and produces a different table. -/
theorem C9_counterexample :
    pfsoln (fun _ => 0) (fun _ => 0) 1 1 [⟨0, 0, 10, 0⟩, ⟨0, 0, 5, 0⟩, ⟨0, 0, 0, 0⟩]
      [⟨2, 0, 1, 0, 0, 0⟩, ⟨0, 1, 0, 0, 0, 0⟩, ⟨0, 1, 0, 0, 0, 0⟩, ⟨1, 1, 0, 0, 0, 0⟩,
        ⟨0, 1, 0, 0, 0, 0⟩] []
      (fun _ _ => 0) (fun _ _ => 0) (fun _ _ => 0) [⟨1, 0⟩, ⟨1, 0⟩, ⟨1, 0⟩]
      [0, 1] [1] none =
      .ok ([⟨0, 0, 10, 0⟩, ⟨0, 0, 5, 0⟩, ⟨0, 0, 0, 0⟩],
        [⟨2, 0, 1, 0, 0, 0⟩, ⟨0, 1, 9, 0, 0, 0⟩, ⟨0, 1, 0, 0, 0, 0⟩, ⟨1, 1, 5, 0, 0, 0⟩,
          ⟨0, 1, 0, 0, 0, 0⟩], []) ∧
    pfsoln (fun _ => 0) (fun _ => 0) 1 1 [⟨0, 0, 10, 0⟩, ⟨0, 0, 5, 0⟩, ⟨0, 0, 0, 0⟩]
      [⟨2, 0, 1, 0, 0, 0⟩, ⟨0, 1, 9, 0, 0, 0⟩, ⟨0, 1, 0, 0, 0, 0⟩, ⟨1, 1, 5, 0, 0, 0⟩,
        ⟨0, 1, 0, 0, 0, 0⟩] []
      (fun _ _ => 0) (fun _ _ => 0) (fun _ _ => 0) [⟨1, 0⟩, ⟨1, 0⟩, ⟨1, 0⟩]
      [0, 1] [1] none ≠
      .ok ([⟨0, 0, 10, 0⟩, ⟨0, 0, 5, 0⟩, ⟨0, 0, 0, 0⟩],
        [⟨2, 0, 1, 0, 0, 0⟩, ⟨0, 1, 9, 0, 0, 0⟩, ⟨0, 1, 0, 0, 0, 0⟩, ⟨1, 1, 5, 0, 0, 0⟩,
          ⟨0, 1, 0, 0, 0, 0⟩], []) :=
  ⟨by
    norm_num [pfsoln, updateP, updatePLoop, updatePStep, updateQ, updQ1, updQ2, updQ3,
      updateV, onIdx, onAt, cntAt, qminAt, qmaxAt, provQ, qtotAt, SbusFun, dotRow,
      resolveIbus, gbusOf, outBr, flowsBr, mapWithIdx, setPgAt, gensAtB, extAtB,
      pvAtB, pBusAt, EPS,
      CNum.conj, CNum.rmul, cnum_add_re, cnum_add_im, cnum_sub_re, cnum_sub_im,
      cnum_mul_re, cnum_mul_im, cnum_zero_re, cnum_zero_im, List.range_succ,
      List.cons_ne_nil], by
    norm_num [pfsoln, updateP, updatePLoop, updatePStep, updateQ, updQ1, updQ2, updQ3,
      updateV, onIdx, onAt, cntAt, qminAt, qmaxAt, provQ, qtotAt, SbusFun, dotRow,
      resolveIbus, gbusOf, outBr, flowsBr, mapWithIdx, setPgAt, gensAtB, extAtB,
      pvAtB, pBusAt, EPS,
      CNum.conj, CNum.rmul, cnum_add_re, cnum_add_im, cnum_sub_re, cnum_sub_im,
      cnum_mul_re, cnum_mul_im, cnum_zero_re, cnum_zero_im, List.range_succ,
      List.cons_ne_nil]⟩

/-- Witness for the amended C9 on a network whose single generator is
in service. -/
theorem C9_amended_idempotent_witness :
    ∃ busT genT brT,
      pfsoln (fun _ => 0) (fun _ => 0) 1 1 [⟨0, 0, 5, 0⟩] [⟨0, 1, 0, 0, 0, 0⟩] []
        (fun _ _ => 0) (fun _ _ => 0) (fun _ _ => 0) [⟨1, 0⟩] [0] [0] none =
        .ok (busT, genT, brT) ∧
      pfsoln (fun _ => 0) (fun _ => 0) 1 1 busT genT brT
        (fun _ _ => 0) (fun _ _ => 0) (fun _ _ => 0) [⟨1, 0⟩] [0] [0] none =
        .ok (busT, genT, brT) :=
  ⟨_, _, _, rfl, C9_amended_idempotent (fun _ => 0) (fun _ => 0) 1 1 [⟨0, 0, 5, 0⟩]
    [⟨0, 1, 0, 0, 0, 0⟩] [] (fun _ _ => 0) (fun _ _ => 0) (fun _ _ => 0) [⟨1, 0⟩]
    [0] [0] none _ _ _ (by decide) rfl⟩
